import Mathlib

/-!
Verification of the llm-axe core (`llm_axe/core.py`, `llm_axe/agents.py`).

The development shallowly embeds the Python code:

* Python values produced by `json.loads` are modelled by the inductive
  type `Json`.  JSON numbers are modelled as integers: fractional and
  exponent number forms (floats) are outside the model, as is the
  non-standard `NaN`/`Infinity` extension of Python's parser.
* `json.loads` is modelled by `jsonParse`, a fuel-indexed recursive
  descent parser over `List Char` following the JSON grammar as CPython's
  `json` module reads it (strict strings: unescaped control characters
  are rejected; `\uXXXX` escapes with surrogate-pair combination; no
  leading zeros in numbers; duplicate object keys keep the last value at
  the first key's position).  A failed parse is `none` (Python: a raised
  `json.decoder.JSONDecodeError`).
* `json.dumps` is modelled by `dumps`/`printJson` with the default
  separators `", "` and `": "`;`"` and `\` are escaped, control
  characters are emitted as `\u00XX` (CPython additionally uses short
  escapes and ASCII-escapes non-ASCII text; both readings parse to the
  same value, which is all the theorems below consume).
* Stateful methods become functions from the agent structure and the
  call's inputs to a result structure carrying the returned value, the
  instance's chat history after the call, and (where a claim needs them)
  the warnings emitted and the collaborator calls made.  The LLM
  collaborator is a deterministic oracle `ask : List Message → String`;
  an object without an `ask` attribute is modelled by `hasAsk = false`.
  The `format`/`temperature` keyword arguments configure the collaborator
  and are not part of the model.
* Python exceptions that escape a call are modelled with `Except PyExn`:
  subscripting a non-dict raises `typeError`, a missing dict key raises
  `keyError`, `x in y` for non-container `y` raises `typeError`, and an
  unhashable key in `x in somedict` raises `typeError`, as in CPython.
* The YAML prompt templates (`system_prompts.yaml`) are data files that
  are not part of the sources under verification; the already-formatted
  template contents are carried as fields of the agent structures.
-/

namespace LlmAxe

/-- A Python value in the image of `json.loads`: `null` is Python `None`,
`obj` a `dict` (association list in insertion order), `arr` a `list`.
Numbers are modelled as integers (see the module comment). -/
inductive Json where
  | null
  | bool (b : Bool)
  | num (n : Int)
  | str (s : String)
  | arr (elems : List Json)
  | obj (members : List (String × Json))
deriving Repr

/-- Structural equality of `Json` values, mirroring Python `==` on values
produced by `json.loads` (used where the source compares such values). -/
def Json.beqFn : Json → Json → Bool
  | .null, .null => true
  | .bool a, .bool b => a == b
  | .num a, .num b => a == b
  | .str a, .str b => a == b
  | .arr xs, .arr ys => go xs ys
  | .obj xs, .obj ys => goM xs ys
  | _, _ => false
where
  go : List Json → List Json → Bool
    | [], [] => true
    | x :: xs, y :: ys => Json.beqFn x y && go xs ys
    | _, _ => false
  goM : List (String × Json) → List (String × Json) → Bool
    | [], [] => true
    | (k1, v1) :: xs, (k2, v2) :: ys => k1 == k2 && Json.beqFn v1 v2 && goM xs ys
    | _, _ => false

/-- Insertion into a Python `dict` modelled as an association list: an
existing key keeps its position and gets the new value, a new key is
appended (CPython dict semantics). -/
def dictInsert {α : Type} : List (String × α) → String → α → List (String × α)
  | [], k, v => [(k, v)]
  | (k0, v0) :: rest, k, v =>
    if k0 = k then (k0, v) :: rest else (k0, v0) :: dictInsert rest k v

/-- Lookup in a Python `dict` modelled as an association list. -/
def dictGet {α : Type} : List (String × α) → String → Option α
  | [], _ => none
  | (k0, v) :: rest, k => if k0 = k then some v else dictGet rest k

/-- The keys of a `dict` modelled as an association list. -/
def dictKeys {α : Type} (d : List (String × α)) : List String := d.map Prod.fst

/-- JSON whitespace, as CPython's scanner skips it. -/
def jsonWs (c : Char) : Bool := c = ' ' || c = '\t' || c = '\n' || c = '\r'

/-- Drop leading JSON whitespace. -/
def skipWs : List Char → List Char
  | [] => []
  | c :: cs => if jsonWs c then skipWs cs else c :: cs

/-- Value of one hexadecimal digit. -/
def hexVal (c : Char) : Option Nat :=
  if '0' ≤ c ∧ c ≤ '9' then some (c.toNat - 48)
  else if 'a' ≤ c ∧ c ≤ 'f' then some (c.toNat - 87)
  else if 'A' ≤ c ∧ c ≤ 'F' then some (c.toNat - 55)
  else none

/-- Decimal digit test. -/
def isDigitCh (c : Char) : Bool := '0' ≤ c && c ≤ '9'

/-- Body of a JSON string after the opening quote: the decoded characters
and the text after the closing quote.  Escapes and the strict rejection
of unescaped control characters follow CPython's `py_scanstring`;
surrogate pairs are combined (a lone surrogate, which CPython would keep
as an unpaired code unit, has no `Char` representation and is rejected). -/
def parseStringBody : List Char → Option (List Char × List Char)
  | [] => none
  | '"' :: rest => some ([], rest)
  | '\\' :: esc =>
    match esc with
    | '"' :: rest => (parseStringBody rest).map (fun p => ('"' :: p.1, p.2))
    | '\\' :: rest => (parseStringBody rest).map (fun p => ('\\' :: p.1, p.2))
    | '/' :: rest => (parseStringBody rest).map (fun p => ('/' :: p.1, p.2))
    | 'b' :: rest => (parseStringBody rest).map (fun p => (Char.ofNat 8 :: p.1, p.2))
    | 'f' :: rest => (parseStringBody rest).map (fun p => (Char.ofNat 12 :: p.1, p.2))
    | 'n' :: rest => (parseStringBody rest).map (fun p => ('\n' :: p.1, p.2))
    | 'r' :: rest => (parseStringBody rest).map (fun p => ('\r' :: p.1, p.2))
    | 't' :: rest => (parseStringBody rest).map (fun p => ('\t' :: p.1, p.2))
    | 'u' :: h1 :: h2 :: h3 :: h4 :: rest =>
      match hexVal h1, hexVal h2, hexVal h3, hexVal h4 with
      | some n1, some n2, some n3, some n4 =>
        let code := 4096 * n1 + 256 * n2 + 16 * n3 + n4
        if 55296 ≤ code ∧ code ≤ 56319 then
          match rest with
          | '\\' :: 'u' :: g1 :: g2 :: g3 :: g4 :: rest2 =>
            match hexVal g1, hexVal g2, hexVal g3, hexVal g4 with
            | some m1, some m2, some m3, some m4 =>
              let code2 := 4096 * m1 + 256 * m2 + 16 * m3 + m4
              if 56320 ≤ code2 ∧ code2 ≤ 57343 then
                (parseStringBody rest2).map
                  (fun p =>
                    (Char.ofNat (65536 + (code - 55296) * 1024 + (code2 - 56320)) :: p.1, p.2))
              else none
            | _, _, _, _ => none
          | _ => none
        else if 56320 ≤ code ∧ code ≤ 57343 then none
        else (parseStringBody rest).map (fun p => (Char.ofNat code :: p.1, p.2))
      | _, _, _, _ => none
    | _ => none
  | c :: rest =>
    if c.toNat < 32 then none
    else (parseStringBody rest).map (fun p => (c :: p.1, p.2))

/-- Consume further decimal digits, accumulating their value. -/
def grabDigits : List Char → Nat → Nat × List Char
  | [], acc => (acc, [])
  | c :: rest, acc =>
    if isDigitCh c then grabDigits rest (10 * acc + (c.toNat - 48)) else (acc, c :: rest)

/-- An unsigned JSON integer: `0`, or a nonzero digit followed by digits
(JSON forbids leading zeros). -/
def parseUnsigned : List Char → Option (Nat × List Char)
  | [] => none
  | c :: rest =>
    if c = '0' then some (0, rest)
    else if isDigitCh c then some (grabDigits rest (c.toNat - 48)) else none

/-- A JSON integer with optional minus sign. -/
def parseNumber : List Char → Option (Int × List Char)
  | [] => none
  | c :: rest =>
    if c = '-' then
      match parseUnsigned rest with
      | some (n, r) => some (-(n : Int), r)
      | none => none
    else
      match parseUnsigned (c :: rest) with
      | some (n, r) => some ((n : Int), r)
      | none => none

mutual

/-- One JSON value (after optional leading whitespace) and the rest of
the input.  `fuel` bounds recursion depth; `jsonParse` supplies enough
for any input of the given length. -/
def parseValue : Nat → List Char → Option (Json × List Char)
  | 0, _ => none
  | fuel + 1, cs =>
    match skipWs cs with
    | '{' :: rest =>
      match skipWs rest with
      | '}' :: r2 => some (.obj [], r2)
      | cs2 => parseMembers fuel cs2 []
    | '[' :: rest =>
      match skipWs rest with
      | ']' :: r2 => some (.arr [], r2)
      | cs2 => parseElems fuel cs2 []
    | '"' :: rest =>
      match parseStringBody rest with
      | some (content, r) => some (.str (String.mk content), r)
      | none => none
    | 't' :: 'r' :: 'u' :: 'e' :: rest => some (.bool true, rest)
    | 'f' :: 'a' :: 'l' :: 's' :: 'e' :: rest => some (.bool false, rest)
    | 'n' :: 'u' :: 'l' :: 'l' :: rest => some (.null, rest)
    | cs2 =>
      match parseNumber cs2 with
      | some (n, r) => some (.num n, r)
      | none => none

/-- The members of a JSON object, positioned at a key (leading whitespace
already skipped), accumulating into a Python dict. -/
def parseMembers : Nat → List Char → List (String × Json) → Option (Json × List Char)
  | 0, _, _ => none
  | fuel + 1, cs, acc =>
    match cs with
    | '"' :: rest =>
      match parseStringBody rest with
      | some (key, r1) =>
        match skipWs r1 with
        | ':' :: r2 =>
          match parseValue fuel r2 with
          | some (v, r3) =>
            match skipWs r3 with
            | ',' :: r4 => parseMembers fuel (skipWs r4) (dictInsert acc (String.mk key) v)
            | '}' :: r4 => some (.obj (dictInsert acc (String.mk key) v), r4)
            | _ => none
          | none => none
        | _ => none
      | none => none
    | _ => none

/-- The elements of a JSON array, positioned at an element. -/
def parseElems : Nat → List Char → List Json → Option (Json × List Char)
  | 0, _, _ => none
  | fuel + 1, cs, acc =>
    match parseValue fuel cs with
    | some (v, r1) =>
      match skipWs r1 with
      | ',' :: r2 => parseElems fuel r2 (acc ++ [v])
      | ']' :: r2 => some (.arr (acc ++ [v]), r2)
      | _ => none
    | none => none

end

/-- Model of `json.loads` on a string: parse one value and require only
whitespace after it.  `none` models a raised `JSONDecodeError`. -/
def jsonParse (cs : List Char) : Option Json :=
  match parseValue (2 * cs.length + 2) cs with
  | some (v, rest) =>
    match skipWs rest with
    | [] => some v
    | _ => none
  | none => none

/-- Lower-case hexadecimal digit. -/
def hexDigitCh (n : Nat) : Char := if n < 10 then Char.ofNat (48 + n) else Char.ofNat (87 + n)

/-- Decimal digits of a natural number, most significant first. -/
def printNat (n : Nat) : List Char :=
  if h : n < 10 then [Char.ofNat (48 + n)]
  else printNat (n / 10) ++ [Char.ofNat (48 + n % 10)]
decreasing_by exact Nat.div_lt_self (by omega) (by omega)

/-- Decimal rendering of an integer. -/
def printInt : Int → List Char
  | Int.ofNat n => printNat n
  | Int.negSucc m => '-' :: printNat (m + 1)

/-- JSON escaping of one character (model of `json.dumps`, see the
module comment). -/
def escChar (c : Char) : List Char :=
  if c = '"' then ['\\', '"']
  else if c = '\\' then ['\\', '\\']
  else if c.toNat < 32 then
    ['\\', 'u', '0', '0', hexDigitCh (c.toNat / 16), hexDigitCh (c.toNat % 16)]
  else [c]

/-- JSON escaping of a character sequence. -/
def escapeChars : List Char → List Char
  | [] => []
  | c :: rest => escChar c ++ escapeChars rest

/-- Join pieces with a separator. -/
def sepJoin (sep : List Char) : List (List Char) → List Char
  | [] => []
  | [x] => x
  | x :: rest => x ++ sep ++ sepJoin sep rest

/-- Serialization of a `Json` value, with `json.dumps`'s default
separators `", "` and `": "`. -/
def printJson : Json → List Char
  | .null => ('n' :: 'u' :: 'l' :: 'l' :: [])
  | .bool true => ('t' :: 'r' :: 'u' :: 'e' :: [])
  | .bool false => ('f' :: 'a' :: 'l' :: 's' :: 'e' :: [])
  | .num n => printInt n
  | .str s => '"' :: (escapeChars s.data ++ ['"'])
  | .arr xs => '[' :: (sepJoin (',' :: ' ' :: []) (xs.attach.map (fun x => printJson x.1)) ++ [']'])
  | .obj kvs => '{' :: (sepJoin (',' :: ' ' :: [])
      (kvs.attach.map
        (fun kv => '"' :: (escapeChars kv.1.1.data ++ ('"' :: ':' :: ' ' :: printJson kv.1.2))))
      ++ ['}'])
decreasing_by
  · have h := List.sizeOf_lt_of_mem x.2
    simp only [Json.arr.sizeOf_spec]
    omega
  · have h := List.sizeOf_lt_of_mem kv.2
    obtain ⟨⟨k, v⟩, hmem⟩ := kv
    simp only [Prod.mk.sizeOf_spec] at h
    simp only [Json.obj.sizeOf_spec]
    omega

/-- Model of `json.dumps` as a string. -/
def dumps (v : Json) : String := String.mk (printJson v)

/-- The input does not continue with a decimal digit (a printed integer
followed by such a tail parses back to itself). -/
def notDigitStart : List Char → Bool
  | [] => true
  | c :: _ => !isDigitCh c

/-- Pairwise-distinct strings. -/
def strNodupB : List String → Bool
  | [] => true
  | s :: rest => !(rest.contains s) && strNodupB rest

/-- A canonical `Json` value: every object's keys are pairwise distinct
— the invariant of every value arising from a Python runtime object,
whose dicts cannot hold a key twice. -/
def canonicalB : Json → Bool
  | .null => true
  | .bool _ => true
  | .num _ => true
  | .str _ => true
  | .arr xs => xs.attach.all (fun x => canonicalB x.1)
  | .obj kvs =>
    strNodupB (kvs.map Prod.fst) && kvs.attach.all (fun kv => canonicalB kv.1.2)
decreasing_by
  · have h := List.sizeOf_lt_of_mem x.2
    simp only [Json.arr.sizeOf_spec]
    omega
  · have h := List.sizeOf_lt_of_mem kv.2
    obtain ⟨⟨k, v⟩, hmem⟩ := kv
    simp only [Prod.mk.sizeOf_spec] at h
    simp only [Json.obj.sizeOf_spec]
    omega

/-- An upper bound on the parser fuel needed to read back a printed
value: one unit per `parseValue` entry plus one per member/element
loop step. -/
def jfuel : Json → Nat
  | .null => 1
  | .bool _ => 1
  | .num _ => 1
  | .str _ => 1
  | .arr xs => 2 + (xs.attach.map (fun x => jfuel x.1 + 1)).sum
  | .obj kvs => 2 + (kvs.attach.map (fun kv => jfuel kv.1.2 + 1)).sum
decreasing_by
  · have h := List.sizeOf_lt_of_mem x.2
    simp only [Json.arr.sizeOf_spec]
    omega
  · have h := List.sizeOf_lt_of_mem kv.2
    obtain ⟨⟨k, v⟩, hmem⟩ := kv
    simp only [Prod.mk.sizeOf_spec] at h
    simp only [Json.obj.sizeOf_spec]
    omega

/-- The loop of `clean_json_response` (`core.py`): index `i`, running
`brace_count` (an `Int`: stray `}` drive it negative, as in the source)
and the recorded `start` of the candidate region; returns the slice
`response[start : i + 1]` at the first `}` that brings the count back to
zero while a start is recorded, else `""`. -/
def cleanGo (full : List Char) : List Char → Nat → Int → Option Nat → List Char
  | [], _, _, _ => []
  | c :: rest, i, braceCount, start =>
    if c = '{' then
      cleanGo full rest (i + 1) (braceCount + 1) (if braceCount = 0 then some i else start)
    else if c = '}' then
      match start with
      | some st =>
        if braceCount - 1 = 0 then (full.take (i + 1)).drop st
        else cleanGo full rest (i + 1) (braceCount - 1) start
      | none => cleanGo full rest (i + 1) (braceCount - 1) none
    else cleanGo full rest (i + 1) braceCount start

/-- `clean_json_response` (`core.py`): extract the first complete
brace-balanced region found by the depth counter. -/
def clean_json_response (cs : List Char) : List Char := cleanGo cs cs 0 0 none

/-- Python collapses a parsed top-level `null` and "no value" into the
same object `None`; a function's `Option Json` result uses `none` for
Python `None`, so a top-level `Json.null` collapses to `none`. -/
def pyRet : Json → Option Json
  | .null => none
  | v => some v

/-- `safe_read_json` (`core.py`): direct parse, else parse of the
cleaned response, else `None` plus the "llm did not respond with proper
json." warning (the `Bool` records whether that warning was emitted). -/
def safe_read_json (response : String) : Option Json × Bool :=
  match jsonParse response.data with
  | some v => (pyRet v, false)
  | none =>
    match jsonParse (clean_json_response response.data) with
    | some v => (pyRet v, false)
    | none => (none, true)

/-- One step of the brace-depth counter. -/
def regionStep (c : Char) (d : Int) : Int :=
  if c = '{' then d + 1 else if c = '}' then d - 1 else d

/-- The brace depth after scanning `cs` from depth `d`. -/
def depthRun (cs : List Char) (d : Int) : Int :=
  cs.foldl (fun acc c => regionStep c acc) d

/-- Every prefix of `cs` (scanned from depth `d`) ends at depth ≥ 1. -/
def allPos : List Char → Int → Bool
  | [], _ => true
  | c :: rest, d => decide (1 ≤ regionStep c d) && allPos rest (regionStep c d)

/-- The scan of a candidate region body from depth `d`: every
intermediate depth stays ≥ 1 and the final character is the `}` that
returns the depth to 0. -/
def regionGo : List Char → Int → Bool
  | [], _ => false
  | c :: rest, d =>
    match rest with
    | [] => c = '}' && regionStep c d = 0
    | _ :: _ => decide (1 ≤ regionStep c d) && regionGo rest (regionStep c d)

/-- A complete balanced brace region: starts with `{`, ends with the
matching `}`, and the depth stays positive strictly inside. -/
def isBalancedRegion (t : List Char) : Bool :=
  match t with
  | '{' :: _ => regionGo t 0
  | _ => false

/-- Modelled from the spec (ResilientJSONParser, §4.2): the successive
top-level balanced regions the brace-depth scan delimits, in order of
appearance; after a region closes the scan continues behind it at
depth 0. -/
def regionsGo (full : List Char) : List Char → Nat → Int → Option Nat → List (List Char)
  | [], _, _, _ => []
  | c :: rest, i, braceCount, start =>
    if c = '{' then
      regionsGo full rest (i + 1) (braceCount + 1) (if braceCount = 0 then some i else start)
    else if c = '}' then
      match start with
      | some st =>
        if braceCount - 1 = 0 then
          ((full.take (i + 1)).drop st) :: regionsGo full rest (i + 1) 0 none
        else regionsGo full rest (i + 1) (braceCount - 1) start
      | none => regionsGo full rest (i + 1) (braceCount - 1) none
    else regionsGo full rest (i + 1) braceCount start

/-- Modelled from the spec (ResilientJSONParser, §4.2): "return the
first such object that parses successfully" — the parse of the first
balanced `{...}` region of the text that parses successfully as JSON.
This is the claim's reading of the extraction, to be compared with the
source's `safe_read_json`, which tries only the first region. -/
def specFirstParsedRegion (cs : List Char) : Option Json :=
  (regionsGo cs cs 0 0 none).findSome? jsonParse

/-- Python `repr` of a JSON-shaped value (container rendering used by
`str` on lists and dicts; string quote-escaping inside `repr` is not
modelled, no theorem consumes it). -/
def pyRepr : Json → String
  | .null => "None"
  | .bool true => "True"
  | .bool false => "False"
  | .num n => String.mk (printInt n)
  | .str s => "'" ++ s ++ "'"
  | .arr xs => "[" ++ String.intercalate ", " (xs.attach.map (fun x => pyRepr x.1)) ++ "]"
  | .obj kvs =>
    "\x7b"
      ++ String.intercalate ", "
        (kvs.attach.map (fun kv => "'" ++ kv.1.1 ++ "': " ++ pyRepr kv.1.2))
      ++ "\x7d"
decreasing_by
  · have h := List.sizeOf_lt_of_mem x.2
    simp only [Json.arr.sizeOf_spec]
    omega
  · have h := List.sizeOf_lt_of_mem kv.2
    obtain ⟨⟨k, v⟩, hmem⟩ := kv
    simp only [Prod.mk.sizeOf_spec] at h
    simp only [Json.obj.sizeOf_spec]
    omega

/-- Python `str` of a JSON-shaped value, as an f-string renders it. -/
def pyStr : Json → String
  | .str s => s
  | v => pyRepr v

/-- Python `str` of a value that is a string or `None`. -/
def pyStrOpt : Option String → String
  | none => "None"
  | some s => s

/-- A chat message in OpenAI format, as `make_prompt` (`core.py`) builds
it: the `images` key is present only when images were supplied. -/
structure Message where
  role : String
  content : String
  images : Option (List String)
deriving Repr

/-- `make_prompt` (`core.py`). -/
def make_prompt (role : String) (content : String) (images : Option (List String)) : Message :=
  ⟨role, content, images⟩

/-- The LLM collaborator: a deterministic oracle.  `hasAsk = false`
models an object without an `ask` attribute (`llm_has_ask` returns
`False`; calling `ask` on it would raise `AttributeError`). -/
structure LLMObj where
  hasAsk : Bool
  ask : List Message → String

/-- `llm_has_ask` (`core.py`): the `hasattr` check (its warning is
attached at the call sites that need it). -/
def llm_has_ask (llm : LLMObj) : Bool := llm.hasAsk

/-- A Python exception class escaping a modelled call. -/
inductive PyExn where
  | keyError
  | typeError
  | valueError
  | attributeError
deriving Repr, DecidableEq

/-- Python subscription `v[key]` with a string key: dict lookup
(`KeyError` when absent), `TypeError` on any non-dict. -/
def pySubscript (v : Json) (key : String) : Except PyExn Json :=
  match v with
  | .obj kvs =>
    match dictGet kvs key with
    | some x => .ok x
    | none => .error .keyError
  | _ => .error .typeError

/-- Python membership `key in v` for a string key: key test on a dict,
element test on a list, substring test on a string, `TypeError` on
non-containers. -/
def pyContainsKey (v : Json) (key : String) : Except PyExn Bool :=
  match v with
  | .obj kvs => .ok (dictGet kvs key).isSome
  | .arr xs => .ok (xs.any (fun x => Json.beqFn x (.str key)))
  | .str s => .ok (infixOf key.data s.data)
  | _ => .error .typeError
where
  /-- Substring test on character lists. -/
  infixOf (pat : List Char) : List Char → Bool
    | [] => pat.isEmpty
    | c :: rest => pat.isPrefixOf (c :: rest) || infixOf pat rest

/-- Python membership `v in d` for a dict `d` with string keys: an
unhashable `v` (dict or list) raises `TypeError`; a non-string hashable
is simply not a key. -/
def pyKeyMember {α : Type} (d : List (String × α)) (v : Json) : Except PyExn Bool :=
  match v with
  | .obj _ => .error .typeError
  | .arr _ => .error .typeError
  | .str s => .ok ((dictKeys d).contains s)
  | _ => .ok false

/-- A declared parameter of a registered callable, as `inspect`
reports it: name, stringified annotation (`str(param.annotation)`), and
the declared default (`none` models `inspect.Parameter.empty`, i.e. no
default; a Python `None` default is `some Json.null`).  Defaults are
JSON-shaped values (runtime Python dicts always have unique keys). -/
structure Param where
  name : String
  annot : String
  default : Option Json
deriving Repr

/-- A parsed documentation comment, as `docstring_parser` reports it:
the short description and the per-parameter descriptions in the order
they are documented (each `Optional[str]`). -/
structure Doc where
  shortDescription : Option String
  paramDescriptions : List (Option String)
deriving Repr

/-- A registered callable: `__name__`, declared parameters in signature
order, parsed docstring. -/
structure Func where
  name : String
  params : List Param
  doc : Doc
deriving Repr

/-- JSON value of an `Optional[str]`. -/
def optStrJson : Option String → Json
  | none => .null
  | some s => .str s

/-- The schema entry of the `i`-th declared parameter (`generate_schema`,
`core.py`): the description is `doc.params[i].description` when the
documentation has at least `i + 1` parameter entries, else the literal
string `"None"`; the default is the declared default, or the sentinel
string `"None"` when the parameter declares none. -/
def paramSchema (doc : Doc) (i : Nat) (p : Param) : Json :=
  let desc : Json :=
    match doc.paramDescriptions.get? i with
    | some d => optStrJson d
    | none => .str ("None")
  let dflt : Json :=
    match p.default with
    | none => .str ("None")
    | some v => v
  .obj [("type", .str p.annot), ("default value", dflt), ("description", desc)]

/-- The `params` dict of one callable, built by indexed insertion as the
source's loop does. -/
def funcParamsVal (f : Func) : List (String × Json) :=
  f.params.enum.foldl (fun acc ip => dictInsert acc ip.2.name (paramSchema f.doc ip.1 ip.2)) []

/-- The schema entry of one callable. -/
def schemaEntryVal (f : Func) : Json :=
  .obj [("description", optStrJson f.doc.shortDescription), ("parameters", .obj (funcParamsVal f))]

/-- The schema dict over all callables, built by insertion in list
order (a repeated `__name__` overwrites the earlier entry, as a Python
dict assignment does). -/
def generateSchemaVal (fs : List Func) : List (String × Json) :=
  fs.foldl (fun acc f => dictInsert acc f.name (schemaEntryVal f)) []

/-- `generate_schema` (`core.py`): the schema dict serialized with
`json.dumps`. -/
def generate_schema (fs : List Func) : String := dumps (.obj (generateSchemaVal fs))

/-- The warning text of `llm_has_ask` (`core.py`). -/
def noAskWarning : String :=
  "llm object must have an ask function! See OllamaChat class in models.py for an example."

/-- The warning text of `safe_read_json` (`core.py`). -/
def badJsonWarning : String := "llm did not respond with proper json."

/-- The missing-fields warning of `FunctionCaller.get_function`. -/
def missingFieldsWarning : String := "llm did not respond with a function and parameters."

/-- The unknown-function warning of `FunctionCaller.get_function`
(an f-string interpolating the offending value). -/
def notValidFunctionWarning (functionName : Json) : String :=
  pyStr functionName ++ " is not a valid function."

/-- `Agent` (`agents.py`): llm, accumulated chat history, system prompt
built at construction (the formatted template content is carried as
data; see the module comment). -/
structure Agent where
  llm : LLMObj
  systemPrompt : Message
  chatHistory : List Message

/-- `Agent.get_prompt`. -/
def Agent.get_prompt (a : Agent) (question : String) : List Message :=
  [a.systemPrompt, make_prompt "user" question none]

/-- The message sequence `Agent.ask` sends: system prompt, the supplied
history if any, then the user message. -/
def Agent.askPrompts (a : Agent) (prompt : String) (images : Option (List String))
    (history : Option (List Message)) : List Message :=
  [a.systemPrompt] ++ history.getD [] ++ [make_prompt "user" prompt images]

/-- The collaborator's reply to `Agent.ask`'s prompts. -/
def Agent.askReply (a : Agent) (prompt : String) (images : Option (List String))
    (history : Option (List Message)) : String :=
  a.llm.ask (a.askPrompts prompt images history)

/-- `Agent.ask` (`agents.py`): `None` when the llm has no `ask`
(after the `llm_has_ask` warning); otherwise ask, append the user and
assistant messages to the history, return the reply. -/
def Agent.ask (a : Agent) (prompt : String) (images : Option (List String))
    (history : Option (List Message)) : Agent × Option String :=
  if llm_has_ask a.llm = false then (a, none)
  else
    let response := a.askReply prompt images history
    ({a with chatHistory := a.chatHistory
        ++ [make_prompt "user" prompt images, make_prompt "assistant" response none]},
     some response)

/-- `FunctionCaller` (`agents.py`): llm (possibly `None`), the
registered callables, the system prompt built at construction, and the
chat history.  The registry `functions_dict` is derived from the
callables exactly as `__init__` builds it. -/
structure FunctionCaller where
  llm : Option LLMObj
  functions : List Func
  systemPrompt : Message
  chatHistory : List Message

/-- The registry: `{func.__name__: func for func in functions}`. -/
def FunctionCaller.functionsDict (fc : FunctionCaller) : List (String × Func) :=
  fc.functions.foldl (fun acc f => dictInsert acc f.name f) []

/-- `FunctionCaller.get_prompt`. -/
def FunctionCaller.get_prompt (fc : FunctionCaller) (question : String) : List Message :=
  [fc.systemPrompt, make_prompt "user" question none]

/-- The message sequence `get_function` sends: system prompt, the
supplied history if any, then the user message. -/
def FunctionCaller.builtPrompts (fc : FunctionCaller) (question : String)
    (history : Option (List Message)) : List Message :=
  [fc.systemPrompt] ++ history.getD [] ++ [make_prompt "user" question none]

/-- A dispatch descriptor, as `get_function` returns it on success. -/
structure DispatchResult where
  function : Func
  parameters : Json
  prompts : List Message
  rawResponse : String
deriving Repr

/-- Result of one `get_function` call: the outcome (`.error e` models an
escaping exception, `.ok none` a `None` return, `.ok (some d)` a
dispatch descriptor), the instance's chat history after the call, and
the warnings emitted during it. -/
structure GetFunctionResult where
  outcome : Except PyExn (Option DispatchResult)
  chatHistory : List Message
  warns : List String

/-- `FunctionCaller.get_function` (`agents.py`), line by line: raise
`ValueError` when llm is `None`; return `None` when it has no `ask`;
build prompts, ask, parse with `safe_read_json`, append the user and
assistant messages to the history; `None` when parsing returned `None`;
`KeyError` on the `function`/`parameters` lookups is caught with a
warning and `None` (any other exception such as `TypeError` on a
non-dict reply escapes); a named function not in the registry warns and
returns `None`; otherwise the dispatch descriptor. -/
def FunctionCaller.get_function (fc : FunctionCaller) (question : String)
    (history : Option (List Message)) : GetFunctionResult :=
  match fc.llm with
  | none => ⟨.error .valueError, fc.chatHistory, []⟩
  | some llm =>
    if llm_has_ask llm = false then ⟨.ok none, fc.chatHistory, [noAskWarning]⟩
    else
      let prompts := fc.builtPrompts question history
      let response := llm.ask prompts
      let parsed := safe_read_json response
      let hist2 := fc.chatHistory
        ++ [make_prompt "user" question none, make_prompt "assistant" response none]
      let warns1 := if parsed.2 then [badJsonWarning] else []
      match parsed.1 with
      | none => ⟨.ok none, hist2, warns1⟩
      | some responseJson =>
        match pySubscript responseJson "function" with
        | .error .keyError => ⟨.ok none, hist2, warns1 ++ [missingFieldsWarning]⟩
        | .error e => ⟨.error e, hist2, warns1⟩
        | .ok functionName =>
          match pySubscript responseJson "parameters" with
          | .error .keyError => ⟨.ok none, hist2, warns1 ++ [missingFieldsWarning]⟩
          | .error e => ⟨.error e, hist2, warns1⟩
          | .ok parameters =>
            match pyKeyMember fc.functionsDict functionName with
            | .error e => ⟨.error e, hist2, warns1⟩
            | .ok false =>
              ⟨.ok none, hist2, warns1 ++ [notValidFunctionWarning functionName]⟩
            | .ok true =>
              match functionName with
              | .str s =>
                match dictGet fc.functionsDict s with
                | some f => ⟨.ok (some ⟨f, parameters, prompts, response⟩), hist2, warns1⟩
                | none => ⟨.ok none, hist2, warns1 ++ [notValidFunctionWarning functionName]⟩
              | _ => ⟨.ok none, hist2, warns1 ++ [notValidFunctionWarning functionName]⟩

/-- A collaborator call made during `OnlineAgent.search`: the search
collaborator or the content reader. -/
inductive PipelineEvent where
  | searchCall (query : Json)
  | fetchCall (url : Json)
deriving Repr

/-- `OnlineAgent` (`agents.py`): llm, chat history, the formatted
`OnlineSearcher` system prompt, the search and site-reader collaborators,
and the two prompt templates `search` loads (carried as data; the
`UrlPicker` template is a function of the question and the serialized
candidate list, the `GenericResponder` content is the formatted system
prompt of the synthesis sub-agent). -/
structure OnlineAgent where
  llm : LLMObj
  chatHistory : List Message
  systemPrompt : Message
  searchFn : Json → Json
  siteReaderFn : Json → Option String
  urlPickerTemplate : String → String → String
  genericResponderContent : String

/-- The message sequence `get_search_query` sends. -/
def OnlineAgent.queryPrompts (oa : OnlineAgent) (question : String) : List Message :=
  [oa.systemPrompt, make_prompt "user" question none]

/-- The collaborator's reply at the query-formulation stage. -/
def OnlineAgent.queryReply (oa : OnlineAgent) (question : String) : String :=
  oa.llm.ask (oa.queryPrompts question)

/-- Result of `get_search_query`: the outcome (Python return value with
`None` as `.ok none`) and the chat history after the call. -/
structure QueryResult where
  outcome : Except PyExn (Option Json)
  chatHistory : List Message

/-- `OnlineAgent.get_search_query` (`agents.py`): ask (no `llm_has_ask`
guard in the source, so a missing `ask` raises `AttributeError` before
any append), parse, append the user and assistant messages, and return
`response_json["search_query"]` when the parsed reply is not `None` and
contains that key (`in` on a non-container raises `TypeError`), else
`None`. -/
def OnlineAgent.get_search_query (oa : OnlineAgent) (question : String) : QueryResult :=
  if llm_has_ask oa.llm = false then ⟨.error .attributeError, oa.chatHistory⟩
  else
    let response := oa.queryReply question
    let parsed := safe_read_json response
    let hist2 := oa.chatHistory
      ++ [make_prompt "user" question none, make_prompt "assistant" response none]
    match parsed.1 with
    | none => ⟨.ok none, hist2⟩
    | some responseJson =>
      match pyContainsKey responseJson "search_query" with
      | .error e => ⟨.error e, hist2⟩
      | .ok true =>
        match pySubscript responseJson "search_query" with
        | .error e => ⟨.error e, hist2⟩
        | .ok v => ⟨.ok (pyRet v), hist2⟩
      | .ok false => ⟨.ok none, hist2⟩

/-- The URL-picker prompt of `search`: the `UrlPicker` template formatted
with the question and the serialized candidate list, sent as a user
message (the source comments: "Use system prompt as user, since we have
chat history"). -/
def OnlineAgent.urlPickerMessage (oa : OnlineAgent) (prompt : String) (query : Json) : Message :=
  make_prompt "user" (oa.urlPickerTemplate prompt (dumps (oa.searchFn query))) none

/-- The collaborator's reply at the URL-selection stage. -/
def OnlineAgent.urlPickerReply (oa : OnlineAgent) (prompt : String)
    (history : Option (List Message)) (query : Json) : String :=
  oa.llm.ask (history.getD [] ++ [oa.urlPickerMessage prompt query])

/-- The 20-space indentation of the synthesis prompt's template lines. -/
def indent20 : String := "                    "

/-- The synthesis-stage user prompt of `OnlineAgent.search`: the
f-string of the source, character for character, with `str
interpolation of the chosen url and of the fetched content (a fetch
returning `None` interpolates as the string `"None"`). -/
def synthesisPrompt (url : Json) (websiteText : Option String) (prompt : String) : String :=
  "\n" ++ indent20 ++ "Please read the following information:\n"
    ++ indent20 ++ "\n"
    ++ indent20 ++ "Information about Website " ++ pyStr url ++ ": \n"
    ++ indent20 ++ pyStrOpt websiteText ++ "\n"
    ++ "\n"
    ++ indent20 ++ "Answer the following question based on the above information: \n"
    ++ indent20 ++ prompt ++ "\n"
    ++ "\n"
    ++ indent20 ++ "Start your answer with \"Based on information from the internet, \"\n"
    ++ indent20

/-- Result of one `OnlineAgent.search` call: the outcome, the chat
history after the call, and the collaborator calls made (search and
fetch), in order. -/
structure SearchOutcome where
  outcome : Except PyExn (Option String)
  chatHistory : List Message
  events : List PipelineEvent

/-- `OnlineAgent.search` (`agents.py`), stage by stage: query
formulation (abort with `None` when it returned `None`); the search
collaborator on the query, serialized with `json.dumps`; the URL-picker
model call (history, then the formatted picker prompt as a user
message), parsed, history appended; abort with a warning and `None`
when the reply has no valid `url`; the site-reader collaborator on the
chosen url; the synthesis prompt dispatched through a fresh
`GenericResponder` sub-agent carrying its own system prompt and the
caller-supplied history; append the synthesis user/assistant pair and
return the reply.  (The reply-is-`None` fallback in the last match is
unreachable: this point is only reached when the llm has `ask`.) -/
def OnlineAgent.search (oa : OnlineAgent) (prompt : String)
    (history : Option (List Message)) : SearchOutcome :=
  let q := oa.get_search_query prompt
  match q.outcome with
  | .error e => ⟨.error e, q.chatHistory, []⟩
  | .ok none => ⟨.ok none, q.chatHistory, []⟩
  | .ok (some query) =>
    let urlPickerMsg := oa.urlPickerMessage prompt query
    let resp := oa.urlPickerReply prompt history query
    let parsed := safe_read_json resp
    let hist2 := q.chatHistory ++ [urlPickerMsg, make_prompt "assistant" resp none]
    match parsed.1 with
    | none => ⟨.ok none, hist2, [.searchCall query]⟩
    | some respJson =>
      match pyContainsKey respJson "url" with
      | .error e => ⟨.error e, hist2, [.searchCall query]⟩
      | .ok false => ⟨.ok none, hist2, [.searchCall query]⟩
      | .ok true =>
        match pySubscript respJson "url" with
        | .error e => ⟨.error e, hist2, [.searchCall query]⟩
        | .ok url =>
          let websiteText := oa.siteReaderFn url
          let userPromptContent := synthesisPrompt url websiteText prompt
          let responder : Agent :=
            ⟨oa.llm, make_prompt "system" oa.genericResponderContent none, []⟩
          let asked := responder.ask userPromptContent none history
          match asked.2 with
          | some response =>
            ⟨.ok (some response),
             hist2 ++ [make_prompt "user" userPromptContent none,
               make_prompt "assistant" response none],
             [.searchCall query, .fetchCall url]⟩
          | none =>
            ⟨.ok none,
             hist2 ++ [make_prompt "user" userPromptContent none,
               make_prompt "assistant" "None" none],
             [.searchCall query, .fetchCall url]⟩

/-- A concrete collaborator that always answers `reply` (fixture for
witnesses and counterexamples). -/
def constLLM (reply : String) : LLMObj := ⟨true, fun _ => reply⟩

/-- Fixture: the `add(a, b)` callable of the spec's dispatch example. -/
def addFunc : Func :=
  ⟨"add", [⟨"a", "<class 'int'>", none⟩, ⟨"b", "<class 'int'>", none⟩],
   ⟨some "Adds two numbers", [some "the first number", some "the second number"]⟩⟩

/-- Fixture: the `multiply(a, b)` callable of the spec's dispatch
example (one documented parameter and one default, to exercise the
schema's positional and sentinel rules). -/
def multiplyFunc : Func :=
  ⟨"multiply", [⟨"a", "<class 'int'>", none⟩, ⟨"b", "<class 'int'>", some (Json.num 2)⟩],
   ⟨some "Multiplies two numbers", [some "the first number"]⟩⟩

/-- Fixture: a dispatcher over `add` and `multiply` whose collaborator
always answers `reply`. -/
def fcReplying (reply : String) : FunctionCaller :=
  ⟨some (constLLM reply), [addFunc, multiplyFunc], make_prompt "system" "pick a function" none, []⟩

/-- Fixture: a basic agent with two pre-existing ledger entries. -/
def exAgent : Agent :=
  ⟨constLLM "a reply", make_prompt "system" "generic responder prompt" none,
   [make_prompt "user" "old question" none, make_prompt "assistant" "old reply" none]⟩

/-- Fixture: a staged collaborator for the online pipeline: answers the
query-formulation prompts (recognized by the searcher system prompt)
with a search query, the single-message URL-picker prompt with a URL,
and the synthesis prompts (recognized by the responder system prompt)
with the final answer. -/
def exOnlineLLM : LLMObj :=
  ⟨true, fun msgs =>
    match msgs with
    | [m, _] =>
      if m.content = "online searcher prompt" then "\x7b\"search_query\": \"q1\"\x7d"
      else if m.content = "generic responder prompt" then "the answer"
      else "unexpected"
    | [_] => "\x7b\"url\": \"http://x\"\x7d"
    | _ => "unexpected"⟩

/-- Fixture: an online agent whose content reader returns `None` for
every URL (a failed fetch). -/
def exOnlineAgent : OnlineAgent :=
  ⟨exOnlineLLM, [], make_prompt "system" "online searcher prompt" none,
   (fun _ => Json.arr [Json.obj [("url", Json.str "http://x"), ("title", Json.str "t"),
     ("description", Json.str "d")]]),
   (fun _ => none),
   (fun q urls => "pick a url for " ++ q ++ " from " ++ urls),
   "generic responder prompt"⟩

/-- Fixture: an online agent whose collaborator never produces JSON, so
query formulation yields nothing. -/
def exNoQueryAgent : OnlineAgent :=
  ⟨constLLM "no json here", [], make_prompt "system" "online searcher prompt" none,
   (fun _ => Json.arr []), (fun _ => some "content"), (fun _ _ => "picker"), "responder"⟩

/-- Fixture: the dispatch descriptor `get_function` returns for the
spec's `multiply` example. -/
def exDispatch : DispatchResult :=
  ⟨multiplyFunc, Json.obj [("a", Json.num 4), ("b", Json.num 5)],
   [make_prompt "system" "pick a function" none, make_prompt "user" "What is 4 times 5?" none],
   "\x7b\"function\": \"multiply\", \"parameters\": \x7b\"a\": 4, \"b\": 5\x7d\x7d"⟩

/-! ## Theorems -/

/-- Helper: whenever the dispatcher's llm is present and has `ask`,
`get_function` appends exactly the user question and the raw assistant
reply to the ledger, in that order, after all pre-existing entries —
before any validation, hence in every outcome. -/
theorem getFunction_appends (fc : FunctionCaller) (l : LLMObj) (question : String)
    (history : Option (List Message)) (hllm : fc.llm = some l) (hask : llm_has_ask l = true) :
    (fc.get_function question history).chatHistory
      = fc.chatHistory ++ [make_prompt "user" question none,
          make_prompt "assistant" (l.ask (fc.builtPrompts question history)) none] := by
  unfold FunctionCaller.get_function
  rw [hllm]
  simp only [hask, Bool.true_eq_false, if_false]
  repeat' split
  all_goals rfl

/-- C1: whenever the model reply parses to a JSON object that lacks a
`function` field, lacks a `parameters` field, or whose `function` field
is not a key of the registry, `get_function` returns `None` (not a
dispatch result) and emits a warning. -/
theorem c1_invalid_reply_warns_and_returns_none
    (fc : FunctionCaller) (l : LLMObj) (question : String) (history : Option (List Message))
    (kvs : List (String × Json))
    (hllm : fc.llm = some l) (hask : llm_has_ask l = true)
    (hparse : (safe_read_json (l.ask (fc.builtPrompts question history))).1 = some (Json.obj kvs))
    (hbad : dictGet kvs "function" = none ∨ dictGet kvs "parameters" = none ∨
      ∃ fv, dictGet kvs "function" = some fv ∧ pyKeyMember fc.functionsDict fv = .ok false) :
    (fc.get_function question history).outcome = .ok none ∧
      (fc.get_function question history).warns ≠ [] := by
  simp only [FunctionCaller.get_function, hllm, hask]
  simp only [Bool.true_eq_false, if_false, hparse]
  rcases hbad with h1 | h2 | ⟨fv, hfv, hmem⟩
  · simp [pySubscript, h1]
  · cases hf : dictGet kvs "function" with
    | none => simp [pySubscript, hf]
    | some fv => simp [pySubscript, hf, h2]
  · cases hp : dictGet kvs "parameters" with
    | none => simp [pySubscript, hfv, hp]
    | some pv => simp [pySubscript, hfv, hp, hmem]

/-- C1 witness: a reply naming the unregistered function
`transmogrify` makes the fixture dispatcher warn and return `None`. -/
theorem c1_witness :
    (fcReplying "\x7b\"function\": \"transmogrify\", \"parameters\": \x7b\x7d\x7d").llm
        = some (constLLM "\x7b\"function\": \"transmogrify\", \"parameters\": \x7b\x7d\x7d") ∧
    llm_has_ask (constLLM "\x7b\"function\": \"transmogrify\", \"parameters\": \x7b\x7d\x7d") = true ∧
    ((fcReplying "\x7b\"function\": \"transmogrify\", \"parameters\": \x7b\x7d\x7d").get_function
        "What is 4 times 5?" none).outcome = .ok none ∧
    ((fcReplying "\x7b\"function\": \"transmogrify\", \"parameters\": \x7b\x7d\x7d").get_function
        "What is 4 times 5?" none).warns ≠ [] := by
  refine ⟨rfl, rfl, ?_⟩
  exact c1_invalid_reply_warns_and_returns_none _ (constLLM _) _ none
    [("function", Json.str "transmogrify"), ("parameters", Json.obj [])] rfl rfl (by rfl)
    (Or.inr (Or.inr ⟨Json.str "transmogrify", rfl, rfl⟩))

/-- C6: the claim fails on the code.  A reply that parses to a JSON
array reaches `response_json["function"]`, whose `TypeError` is not the
caught `KeyError`: the exception escapes `get_function` instead of
resolving to a null return plus a warning. -/
theorem c6_array_reply_raises_typeError :
    ((fcReplying "[1, 2]").get_function "What is 4 times 5?" none).outcome
      = .error .typeError := rfl

/-- C7: a successful `Agent.ask` (llm has `ask`) returns the reply and
appends exactly `[user, assistant]`, in that order, after all
pre-existing ledger entries, for any supplied history; and a
`get_function` call that returns (rather than raises) on a dispatcher
with a present, `ask`-capable llm likewise appends exactly its
`[user, assistant]` pair after all pre-existing entries. -/
theorem c7_ledger_appends_user_then_assistant :
    (∀ (a : Agent) (prompt : String) (images : Option (List String))
        (history : Option (List Message)), llm_has_ask a.llm = true →
      (a.ask prompt images history).2 = some (a.askReply prompt images history) ∧
      (a.ask prompt images history).1.chatHistory
        = a.chatHistory ++ [make_prompt "user" prompt images,
            make_prompt "assistant" (a.askReply prompt images history) none])
    ∧ (∀ (fc : FunctionCaller) (l : LLMObj) (question : String)
        (history : Option (List Message)) (r : Option DispatchResult),
      fc.llm = some l → llm_has_ask l = true →
      (fc.get_function question history).outcome = .ok r →
      (fc.get_function question history).chatHistory
        = fc.chatHistory ++ [make_prompt "user" question none,
            make_prompt "assistant" (l.ask (fc.builtPrompts question history)) none]) := by
  constructor
  · intro a prompt images history hask
    simp [Agent.ask, hask]
  · intro fc l question history r hllm hask _
    exact getFunction_appends fc l question history hllm hask

/-- C7 witness: both parts at concrete calls — the fixture agent with a
two-entry ledger and a supplied history, and the fixture dispatcher's
successful `multiply` dispatch. -/
theorem c7_witness :
    (llm_has_ask exAgent.llm = true ∧
      (exAgent.ask "hi" none (some [make_prompt "user" "h1" none])).1.chatHistory
        = exAgent.chatHistory ++ [make_prompt "user" "hi" none,
            make_prompt "assistant"
              (exAgent.askReply "hi" none (some [make_prompt "user" "h1" none])) none])
    ∧ ((fcReplying "\x7b\"function\": \"multiply\", \"parameters\": \x7b\"a\": 4, \"b\": 5\x7d\x7d").get_function
          "What is 4 times 5?" none).chatHistory
        = (fcReplying "\x7b\"function\": \"multiply\", \"parameters\": \x7b\"a\": 4, \"b\": 5\x7d\x7d").chatHistory
          ++ [make_prompt "user" "What is 4 times 5?" none,
            make_prompt "assistant"
              ((constLLM "\x7b\"function\": \"multiply\", \"parameters\": \x7b\"a\": 4, \"b\": 5\x7d\x7d").ask
                ((fcReplying "\x7b\"function\": \"multiply\", \"parameters\": \x7b\"a\": 4, \"b\": 5\x7d\x7d").builtPrompts
                  "What is 4 times 5?" none)) none] :=
  ⟨⟨rfl, (c7_ledger_appends_user_then_assistant.1 exAgent "hi" none
      (some [make_prompt "user" "h1" none]) rfl).2⟩,
   c7_ledger_appends_user_then_assistant.2 _ _ "What is 4 times 5?" none (some exDispatch)
     rfl rfl rfl⟩

/-- C8: every non-null result of `get_function` carries a `function`
that is a value of the registry (the name-to-callable mapping built at
construction) at return time. -/
theorem c8_returned_function_in_registry (fc : FunctionCaller) (question : String)
    (history : Option (List Message)) (d : DispatchResult)
    (h : (fc.get_function question history).outcome = .ok (some d)) :
    ∃ s, dictGet fc.functionsDict s = some d.function := by
  unfold FunctionCaller.get_function at h
  split at h
  · simp at h
  · split at h
    · simp at h
    · simp only at h
      split at h
      · simp at h
      · split at h
        · simp at h
        · simp at h
        · split at h
          · simp at h
          · simp at h
          · split at h
            · simp at h
            · simp at h
            · split at h
              · split at h
                · simp only [Except.ok.injEq, Option.some.injEq] at h
                  exact ⟨_, by rw [← h]; assumption⟩
                · simp at h
              · simp at h

/-- C8 witness: the spec's `multiply` dispatch example returns the
fixture descriptor, whose function is the registry's entry. -/
theorem c8_witness :
    ((fcReplying "\x7b\"function\": \"multiply\", \"parameters\": \x7b\"a\": 4, \"b\": 5\x7d\x7d").get_function
        "What is 4 times 5?" none).outcome = .ok (some exDispatch) ∧
    ∃ s, dictGet (fcReplying "\x7b\"function\": \"multiply\", \"parameters\": \x7b\"a\": 4, \"b\": 5\x7d\x7d").functionsDict s
        = some exDispatch.function :=
  ⟨rfl, c8_returned_function_in_registry _ _ none exDispatch rfl⟩

/-- C10 (implicit): on every `get_function` call that reaches the model
collaborator (llm present with `ask`), the user question and the raw
assistant reply are appended to the ledger, in that order, before
validation — the ledger grows by exactly this pair in every outcome,
including the calls that return `None` or raise. -/
theorem c10_ledger_grows_before_validation (fc : FunctionCaller) (l : LLMObj)
    (question : String) (history : Option (List Message))
    (hllm : fc.llm = some l) (hask : llm_has_ask l = true) :
    (fc.get_function question history).chatHistory
      = fc.chatHistory ++ [make_prompt "user" question none,
          make_prompt "assistant" (l.ask (fc.builtPrompts question history)) none] :=
  getFunction_appends fc l question history hllm hask

/-- C10 witness: at a reply naming an unknown function the call returns
`None`, yet the ledger still grew by exactly the `[user, assistant]`
pair. -/
theorem c10_witness :
    ((fcReplying "\x7b\"function\": \"transmogrify\", \"parameters\": \x7b\x7d\x7d").get_function
        "Who?" none).chatHistory
      = (fcReplying "\x7b\"function\": \"transmogrify\", \"parameters\": \x7b\x7d\x7d").chatHistory
        ++ [make_prompt "user" "Who?" none,
          make_prompt "assistant"
            ((constLLM "\x7b\"function\": \"transmogrify\", \"parameters\": \x7b\x7d\x7d").ask
              ((fcReplying "\x7b\"function\": \"transmogrify\", \"parameters\": \x7b\x7d\x7d").builtPrompts
                "Who?" none)) none] :=
  c10_ledger_grows_before_validation _ _ "Who?" none rfl rfl

/-- C4: when the query-formulation reply is unparsable or parses to an
object without a `search_query` field, `search` returns `None` and
neither the search collaborator nor the content reader is invoked. -/
theorem c4_no_query_short_circuits (oa : OnlineAgent) (prompt : String)
    (history : Option (List Message)) (hask : llm_has_ask oa.llm = true)
    (hq : (safe_read_json (oa.queryReply prompt)).1 = none ∨
      ∃ kvs, (safe_read_json (oa.queryReply prompt)).1 = some (Json.obj kvs) ∧
        dictGet kvs "search_query" = none) :
    (oa.search prompt history).outcome = .ok none ∧
      (oa.search prompt history).events = [] := by
  have hquery : (oa.get_search_query prompt).outcome = .ok none := by
    simp only [OnlineAgent.get_search_query, hask, Bool.true_eq_false, if_false]
    rcases hq with h1 | ⟨kvs, h2, h3⟩
    · simp [h1]
    · simp [h2, pyContainsKey, h3]
  simp [OnlineAgent.search, hquery]

/-- C4 witness: the fixture agent whose collaborator answers prose gets
no query, returns `None`, and makes zero collaborator calls. -/
theorem c4_witness :
    llm_has_ask exNoQueryAgent.llm = true ∧
    (safe_read_json (exNoQueryAgent.queryReply "anything")).1 = none ∧
    (exNoQueryAgent.search "anything" none).outcome = .ok none ∧
    (exNoQueryAgent.search "anything" none).events = [] :=
  ⟨rfl, rfl, c4_no_query_short_circuits exNoQueryAgent "anything" none rfl (Or.inl rfl)⟩

set_option maxRecDepth 4000 in
/-- C3 counterexample: the claim's fixed sentinel does not exist in the
code.  On the fixture run whose reader returns `None`, the pipeline
still returns the synthesized answer, and the synthesis prompt it
recorded in the ledger interpolates the null as the string `"None"`: it
does not contain `"content not available"` anywhere. -/
theorem c3_counterexample :
    exOnlineAgent.siteReaderFn (Json.str "http://x") = none ∧
    (exOnlineAgent.search "myquestion" none).outcome = .ok (some "the answer") ∧
    ((exOnlineAgent.search "myquestion" none).chatHistory.get? 4).map Message.content
      = some (synthesisPrompt (Json.str "http://x") none "myquestion") ∧
    pyContainsKey.infixOf ("content not available").data
      (synthesisPrompt (Json.str "http://x") none "myquestion").data = false ∧
    pyContainsKey.infixOf ("None").data
      (synthesisPrompt (Json.str "http://x") none "myquestion").data = true := by
  exact ⟨rfl, rfl, rfl, rfl, rfl⟩

/-- C3 as amended: when the fetch stage's reader returns `None` for the
chosen URL, `search` does not abort: it interpolates the null into the
synthesis prompt as the string `"None"` (Python's rendering of `None`
in an f-string) and still returns the answer synthesized by the
responder sub-agent over that prompt. -/
theorem c3_null_fetch_degrades_gracefully (oa : OnlineAgent) (prompt : String)
    (history : Option (List Message)) (query : Json) (rj : Json) (url : Json)
    (hq : (oa.get_search_query prompt).outcome = .ok (some query))
    (hparse : (safe_read_json (oa.urlPickerReply prompt history query)).1 = some rj)
    (hhas : pyContainsKey rj "url" = .ok true)
    (hurl : pySubscript rj "url" = .ok url)
    (hfetch : oa.siteReaderFn url = none)
    (hask : llm_has_ask oa.llm = true) :
    (oa.search prompt history).outcome
      = .ok (some (oa.llm.ask ([make_prompt "system" oa.genericResponderContent none]
          ++ history.getD [] ++ [make_prompt "user" (synthesisPrompt url none prompt) none])))
      ∧ pyStrOpt (oa.siteReaderFn url) = "None"
      ∧ ∃ pre post, synthesisPrompt url (oa.siteReaderFn url) prompt
          = pre ++ pyStrOpt (oa.siteReaderFn url) ++ post := by
  refine ⟨?_, ?_, ?_⟩
  · simp only [OnlineAgent.search, hq]
    simp only [hparse, hhas, hurl, hfetch]
    simp [Agent.ask, Agent.askReply, Agent.askPrompts, hask]
  · rw [hfetch]; rfl
  · rw [hfetch]
    exact ⟨"\n" ++ indent20 ++ "Please read the following information:\n" ++ indent20 ++ "\n"
      ++ indent20 ++ "Information about Website " ++ pyStr url ++ ": \n" ++ indent20,
      "\n" ++ "\n" ++ indent20 ++ "Answer the following question based on the above information: \n"
      ++ indent20 ++ prompt ++ "\n" ++ "\n"
      ++ indent20 ++ "Start your answer with \"Based on information from the internet, \"\n"
      ++ indent20,
      by simp [synthesisPrompt, String.append_assoc]⟩

/-- C3 witness: the amended claim at the fixture run — query and URL
stages succeed, the reader returns `None`, and the pipeline returns the
synthesized answer with `"None"` interpolated. -/
theorem c3_witness :
    (exOnlineAgent.get_search_query "myquestion").outcome = .ok (some (Json.str "q1")) ∧
    ((exOnlineAgent.search "myquestion" none).outcome
        = .ok (some (exOnlineAgent.llm.ask
            ([make_prompt "system" exOnlineAgent.genericResponderContent none]
              ++ (none : Option (List Message)).getD []
              ++ [make_prompt "user" (synthesisPrompt (Json.str "http://x") none "myquestion") none])))
      ∧ pyStrOpt (exOnlineAgent.siteReaderFn (Json.str "http://x")) = "None"
      ∧ ∃ pre post, synthesisPrompt (Json.str "http://x")
            (exOnlineAgent.siteReaderFn (Json.str "http://x")) "myquestion"
          = pre ++ pyStrOpt (exOnlineAgent.siteReaderFn (Json.str "http://x")) ++ post) :=
  ⟨rfl, c3_null_fetch_degrades_gracefully exOnlineAgent "myquestion" none (Json.str "q1")
    (Json.obj [("url", Json.str "http://x")]) (Json.str "http://x") rfl rfl rfl rfl rfl rfl⟩

/-- C2 counterexample: the extraction does not return "the first
balanced `{...}` substring that parses successfully".  On
`"{a} {\"a\":1}"` the direct parse fails; the first balanced region
`{a}` does not parse, and a later balanced region `{\"a\":1}` does, so
the claim's reading (`specFirstParsedRegion`) yields that object — but
`safe_read_json` tries only the first region and returns `None` with
the malformed-output warning. -/
theorem c2_counterexample :
    jsonParse ("\x7ba\x7d \x7b\"a\":1\x7d").data = none ∧
    specFirstParsedRegion ("\x7ba\x7d \x7b\"a\":1\x7d").data
      = some (Json.obj [("a", Json.num 1)]) ∧
    (safe_read_json ("\x7ba\x7d \x7b\"a\":1\x7d")).1 = none ∧
    (safe_read_json ("\x7ba\x7d \x7b\"a\":1\x7d")).2 = true :=
  ⟨rfl, rfl, rfl, rfl⟩

/-- C2 as amended: if the direct parse succeeds, `safe_read_json`
returns that value (Python's `None` collapse included); otherwise it
attempts to parse only the first complete balanced region found by the
brace-depth counter (`clean_json_response`) and returns its parse or
`None` — and on the spec's example it recovers exactly the embedded
object. -/
theorem c2_extraction_behaviour (s : String) :
    ((∀ v, jsonParse s.data = some v → (safe_read_json s).1 = pyRet v) ∧
      (jsonParse s.data = none →
        (safe_read_json s).1 = (jsonParse (clean_json_response s.data)).bind pyRet))
    ∧ (safe_read_json "noise \x7b\"a\":1,\"b\":[1,2]\x7d more noise").1
        = some (Json.obj [("a", Json.num 1), ("b", Json.arr [Json.num 1, Json.num 2])]) := by
  refine ⟨⟨?_, ?_⟩, rfl⟩
  · intro v hv
    simp [safe_read_json, hv]
  · intro hv
    simp only [safe_read_json, hv]
    cases h2 : jsonParse (clean_json_response s.data) <;> simp [h2]

/-- C2 witness: a directly-parsing input returns its parsed value. -/
theorem c2_witness :
    jsonParse ("\x7b\"a\": 7\x7d").data = some (Json.obj [("a", Json.num 7)]) ∧
    (safe_read_json ("\x7b\"a\": 7\x7d")).1 = pyRet (Json.obj [("a", Json.num 7)]) :=
  ⟨rfl, (c2_extraction_behaviour ("\x7b\"a\": 7\x7d")).1.1 (Json.obj [("a", Json.num 7)]) rfl⟩

/-- Unfolding of `depthRun` over a leading character. -/
theorem depthRun_cons (c : Char) (q : List Char) (d : Int) :
    depthRun (c :: q) d = depthRun q (regionStep c d) := rfl

/-- Unfolding of `allPos` over a leading character. -/
theorem allPos_cons (c : Char) (q : List Char) (d : Int) :
    allPos (c :: q) d = (decide (1 ≤ regionStep c d) && allPos q (regionStep c d)) := rfl

/-- `depthRun` over a trailing character. -/
theorem depthRun_append_singleton (q : List Char) (c : Char) (d : Int) :
    depthRun (q ++ [c]) d = regionStep c (depthRun q d) := by
  simp [depthRun, List.foldl_append]

/-- `allPos` over a trailing character. -/
theorem allPos_append_singleton (q : List Char) (c : Char) (d : Int) :
    allPos (q ++ [c]) d = (allPos q d && decide (1 ≤ regionStep c (depthRun q d))) := by
  induction q generalizing d with
  | nil => simp [allPos, depthRun]
  | cons x q ih =>
    rw [List.cons_append, allPos_cons, ih, allPos_cons, depthRun_cons, Bool.and_assoc]

/-- A nonempty all-positive scan ends at positive depth. -/
theorem allPos_depthRun_pos (q : List Char) (d : Int) (h : allPos q d = true) (hne : q ≠ []) :
    1 ≤ depthRun q d := by
  induction q generalizing d with
  | nil => exact absurd rfl hne
  | cons c q ih =>
    rw [allPos_cons, Bool.and_eq_true, decide_eq_true_eq] at h
    cases q with
    | nil => simpa [depthRun] using h.1
    | cons c2 q2 =>
      rw [depthRun_cons]
      exact ih (regionStep c d) h.2 (by simp)

/-- Closing an all-positive scan of final depth 1 with `}` gives a
complete region scan. -/
theorem regionGo_append_close (q : List Char) (d : Int) (hne : q ≠ [])
    (hpos : allPos q d = true) (hdepth : depthRun q d = 1) :
    regionGo (q ++ ['}']) d = true := by
  induction q generalizing d with
  | nil => exact absurd rfl hne
  | cons c q ih =>
    cases q with
    | nil =>
      have h1 : regionStep c d = 1 := by simpa [depthRun] using hdepth
      rw [List.singleton_append]
      rw [show regionGo [c, '}'] d
          = (decide (1 ≤ regionStep c d) && regionGo ['}'] (regionStep c d)) from rfl]
      rw [h1]
      rfl
    | cons c2 q2 =>
      rw [allPos_cons, Bool.and_eq_true] at hpos
      rw [depthRun_cons] at hdepth
      have := ih (regionStep c d) (by simp) hpos.2 hdepth
      rw [List.cons_append]
      rw [show regionGo (c :: ((c2 :: q2) ++ ['}'])) d
          = (decide (1 ≤ regionStep c d) && regionGo ((c2 :: q2) ++ ['}']) (regionStep c d))
        from rfl]
      rw [hpos.1, Bool.true_and]
      exact this

/-- The shape of `cleanGo`'s result: scanning the rest `cs` of the full
input `pre ++ cs` from a state whose recorded `start` (when set) marks
an all-positive region begun at depth 0 inside `pre`, the loop returns
either the empty string or a complete balanced brace region occurring
as a contiguous substring of the input. -/
theorem cleanGo_shape : ∀ (cs pre : List Char) (braceCount : Int) (start : Option Nat),
    (∀ st, start = some st →
      st < pre.length ∧
      (pre.drop st).head? = some '{' ∧
      allPos (pre.drop st) 0 = true ∧
      depthRun (pre.drop st) 0 = braceCount) →
    cleanGo (pre ++ cs) cs pre.length braceCount start = [] ∨
      ∃ t, isBalancedRegion t = true ∧ (∃ a b, pre ++ cs = a ++ t ++ b) ∧
        cleanGo (pre ++ cs) cs pre.length braceCount start = t := by
  intro cs
  induction cs with
  | nil =>
    intro pre bc start hinv
    left
    rfl
  | cons c rest ih =>
    intro pre bc start hinv
    have hfull : pre ++ c :: rest = (pre ++ [c]) ++ rest := by
      simp [List.append_assoc]
    have hlen : pre.length + 1 = (pre ++ [c]).length := by
      simp
    simp only [cleanGo]
    by_cases hc : c = '{'
    · subst hc
      simp only [if_pos rfl]
      by_cases hbc : bc = 0
      · rw [if_pos hbc]
        have hinv2 : ∀ st, (some pre.length : Option Nat) = some st →
            st < (pre ++ ['{']).length ∧
            ((pre ++ ['{']).drop st).head? = some '{' ∧
            allPos ((pre ++ ['{']).drop st) 0 = true ∧
            depthRun ((pre ++ ['{']).drop st) 0 = bc + 1 := by
          intro st hst
          injection hst with hst
          subst hst
          refine ⟨by simp, ?_, ?_, ?_⟩
          · rw [List.drop_left]
            rfl
          · rw [List.drop_left]
            rfl
          · rw [List.drop_left]
            simp [hbc, depthRun, regionStep]
        have := ih (pre ++ ['{']) (bc + 1) (some pre.length) hinv2
        rw [hfull, hlen]
        exact this
      · simp only [if_neg hbc]
        have hinv2 : ∀ st, start = some st →
            st < (pre ++ ['{']).length ∧
            ((pre ++ ['{']).drop st).head? = some '{' ∧
            allPos ((pre ++ ['{']).drop st) 0 = true ∧
            depthRun ((pre ++ ['{']).drop st) 0 = bc + 1 := by
          intro st hst
          obtain ⟨h1, h2, h3, h4⟩ := hinv st hst
          have hle : st ≤ pre.length := le_of_lt h1
          have hdrop : (pre ++ ['{']).drop st = pre.drop st ++ ['{'] :=
            List.drop_append_of_le_length hle
          have hne : pre.drop st ≠ [] := by
            intro hemp
            rw [hemp] at h2
            exact absurd h2 (by simp)
          have hondepth : 1 ≤ bc := by
            rw [← h4]
            exact allPos_depthRun_pos _ _ h3 hne
          refine ⟨by simp [Nat.lt_succ_of_lt h1], ?_, ?_, ?_⟩
          · rw [hdrop, List.head?_append, h2]
            rfl
          · rw [hdrop, allPos_append_singleton, h3, h4]
            rw [show regionStep '{' bc = bc + 1 from rfl]
            simp only [Bool.true_and, decide_eq_true_eq]
            omega
          · rw [hdrop, depthRun_append_singleton, h4]
            simp [regionStep]
        have := ih (pre ++ ['{']) (bc + 1) start hinv2
        rw [hfull, hlen]
        exact this
    · by_cases hc2 : c = '}'
      · subst hc2
        simp only [if_neg hc, if_pos rfl]
        cases start with
        | none =>
          have := ih (pre ++ ['}']) (bc - 1) none (by intro st hst; cases hst)
          rw [hfull, hlen]
          exact this
        | some st =>
          obtain ⟨h1, h2, h3, h4⟩ := hinv st rfl
          have hle : st ≤ pre.length := le_of_lt h1
          have hdrop : (pre ++ ['}']).drop st = pre.drop st ++ ['}'] :=
            List.drop_append_of_le_length hle
          have hne : pre.drop st ≠ [] := by
            intro hemp
            rw [hemp] at h2
            exact absurd h2 (by simp)
          have hondepth : 1 ≤ bc := by
            rw [← h4]
            exact allPos_depthRun_pos _ _ h3 hne
          by_cases hz : bc - 1 = 0
          · simp only [if_pos hz]
            right
            have htake : (pre ++ '}' :: rest).take (pre.length + 1) = pre ++ ['}'] := by
              rw [List.take_append_eq_append_take]
              rw [List.take_of_length_le (by omega)]
              simp
            refine ⟨pre.drop st ++ ['}'], ?_, ?_, ?_⟩
            · cases hq : pre.drop st with
              | nil => exact absurd hq hne
              | cons x tail =>
                have hx : x = '{' := by
                  rw [hq] at h2
                  injection h2
                subst hx
                show isBalancedRegion ('{' :: (tail ++ ['}'])) = true
                have hgo : regionGo (('{' :: tail) ++ ['}']) 0 = true := by
                  apply regionGo_append_close _ _ (by simp) (by rw [← hq]; exact h3)
                  rw [← hq, h4]
                  omega
                rw [List.cons_append] at hgo
                exact hgo
            · refine ⟨pre.take st, rest, ?_⟩
              conv_lhs => rw [← List.take_append_drop st pre]
              simp only [List.append_assoc, List.cons_append, List.singleton_append,
                List.nil_append]
            · rw [htake, hdrop]
              simp
          · simp only [if_neg hz]
            have hinv2 : ∀ st2, (some st : Option Nat) = some st2 →
                st2 < (pre ++ ['}']).length ∧
                ((pre ++ ['}']).drop st2).head? = some '{' ∧
                allPos ((pre ++ ['}']).drop st2) 0 = true ∧
                depthRun ((pre ++ ['}']).drop st2) 0 = bc - 1 := by
              intro st2 hst2
              injection hst2 with hst2
              subst hst2
              refine ⟨by simp [Nat.lt_succ_of_lt h1], ?_, ?_, ?_⟩
              · rw [hdrop, List.head?_append, h2]
                rfl
              · rw [hdrop, allPos_append_singleton, h3, h4]
                rw [show regionStep '}' bc = bc - 1 from rfl]
                simp only [Bool.true_and, decide_eq_true_eq]
                omega
              · rw [hdrop, depthRun_append_singleton, h4]
                simp [regionStep]
            have := ih (pre ++ ['}']) (bc - 1) (some st) hinv2
            rw [hfull, hlen]
            exact this
      · simp only [if_neg hc, if_neg hc2]
        have hinv2 : ∀ st, start = some st →
            st < (pre ++ [c]).length ∧
            ((pre ++ [c]).drop st).head? = some '{' ∧
            allPos ((pre ++ [c]).drop st) 0 = true ∧
            depthRun ((pre ++ [c]).drop st) 0 = bc := by
          intro st hst
          obtain ⟨h1, h2, h3, h4⟩ := hinv st hst
          have hle : st ≤ pre.length := le_of_lt h1
          have hdrop : (pre ++ [c]).drop st = pre.drop st ++ [c] :=
            List.drop_append_of_le_length hle
          have hne : pre.drop st ≠ [] := by
            intro hemp
            rw [hemp] at h2
            exact absurd h2 (by simp)
          have hondepth : 1 ≤ bc := by
            rw [← h4]
            exact allPos_depthRun_pos _ _ h3 hne
          have hstep : regionStep c (depthRun (pre.drop st) 0) = bc := by
            rw [h4]
            simp [regionStep, hc, hc2]
          refine ⟨by simp [Nat.lt_succ_of_lt h1], ?_, ?_, ?_⟩
          · rw [hdrop, List.head?_append, h2]
            rfl
          · rw [hdrop, allPos_append_singleton, h3, hstep]
            simp only [Bool.true_and, decide_eq_true_eq]
            omega
          · rw [hdrop, depthRun_append_singleton, hstep]
        have := ih (pre ++ [c]) bc start hinv2
        rw [hfull, hlen]
        exact this

/-- `clean_json_response` returns the empty string or a complete
balanced brace region occurring contiguously in its input. -/
theorem clean_shape (cs : List Char) :
    clean_json_response cs = [] ∨
      ∃ t, isBalancedRegion t = true ∧ (∃ a b, cs = a ++ t ++ b) ∧
        clean_json_response cs = t := by
  have h := cleanGo_shape cs [] 0 none (by intro st hst; cases hst)
  simpa [clean_json_response] using h

/-- A balanced region begins with `{`. -/
theorem isBalancedRegion_head (t : List Char) (h : isBalancedRegion t = true) :
    t.head? = some '{' := by
  unfold isBalancedRegion at h
  split at h
  · rfl
  · exact absurd h (by simp)

/-- A text without `{` has no balanced brace region among its
contiguous slices. -/
theorem no_brace_no_balanced (cs : List Char) (hnb : '{' ∉ cs) (i j : Nat)
    (h : isBalancedRegion ((cs.drop i).take j) = true) : False := by
  have hh := isBalancedRegion_head _ h
  have hmem : '{' ∈ (cs.drop i).take j := by
    cases he : (cs.drop i).take j with
    | nil => rw [he] at hh; exact absurd hh (by simp)
    | cons c tl =>
      rw [he] at hh
      injection hh with hh
      rw [← hh]
      exact List.mem_cons_self _ _
  have hsub : ((cs.drop i).take j).Sublist cs :=
    (List.take_sublist _ _).trans (List.drop_sublist _ _)
  exact hnb (hsub.subset hmem)

/-- C9 counterexample: the claim fails as stated.  The input `"42"`
contains no balanced brace region at all (so in particular none that
parses as JSON), yet `safe_read_json` returns the parsed value `42` —
not null — and emits no warning, because the direct parse succeeds. -/
theorem c9_counterexample :
    (∀ i, i < ("42" : String).data.length + 1 → ∀ j, j < ("42" : String).data.length + 1 →
      isBalancedRegion ((("42" : String).data.drop i).take j) = true →
      jsonParse ((("42" : String).data.drop i).take j) = none) ∧
    safe_read_json "42" = (some (Json.num 42), false) :=
  ⟨fun i _ j _ hbal =>
    (no_brace_no_balanced ("42" : String).data (by decide) i j hbal).elim, rfl⟩

/-- C9 as amended: for every input whose direct parse fails and in
which no balanced brace region parses as JSON, `safe_read_json` returns
null and emits the recoverable malformed-output warning (the model is a
total function: no exception is raised for any string input). -/
theorem c9_no_parsable_region_returns_none (s : String)
    (hdirect : jsonParse s.data = none)
    (hregions : ∀ i, i < s.data.length + 1 → ∀ j, j < s.data.length + 1 →
      isBalancedRegion ((s.data.drop i).take j) = true →
      jsonParse ((s.data.drop i).take j) = none) :
    safe_read_json s = (none, true) := by
  have hclean : jsonParse (clean_json_response s.data) = none := by
    rcases clean_shape s.data with h | ⟨t, hbal, ⟨a, b, hdecomp⟩, heq⟩
    · rw [h]; rfl
    · rw [heq]
      have ht : (s.data.drop a.length).take t.length = t := by
        rw [hdecomp, List.append_assoc, List.drop_left, List.take_left]
      have hi : a.length < s.data.length + 1 := by
        rw [hdecomp]; simp; omega
      have hj : t.length < s.data.length + 1 := by
        rw [hdecomp]; simp; omega
      have hr := hregions a.length hi t.length hj (by rw [ht]; exact hbal)
      rw [ht] at hr
      exact hr
  unfold safe_read_json
  rw [hdirect, hclean]

/-- C9 witness: on prose with no braces, `safe_read_json` returns null
with the warning. -/
theorem c9_witness :
    jsonParse ("it was not valid json").data = none ∧
    safe_read_json "it was not valid json" = (none, true) :=
  ⟨rfl, c9_no_parsable_region_returns_none "it was not valid json" rfl
    (fun i _ j _ hbal =>
      (no_brace_no_balanced ("it was not valid json").data (by decide) i j hbal).elim)⟩



end LlmAxe

namespace LlmAxe

theorem grabDigits_notDigit (rest : List Char) (acc : Nat) (h : notDigitStart rest = true) :
    grabDigits rest acc = (acc, rest) := by
  cases rest with
  | nil => rfl
  | cons c tl =>
    simp only [notDigitStart, Bool.not_eq_true'] at h
    simp [grabDigits, h]

theorem grabDigits_chain (ds : List Char) (hds : ∀ c ∈ ds, isDigitCh c = true) :
    ∀ (acc : Nat) (rest : List Char),
      grabDigits (ds ++ rest) acc
        = grabDigits rest (List.foldl (fun a c => 10 * a + (c.toNat - 48)) acc ds) := by
  induction ds with
  | nil => intro acc rest; rfl
  | cons c ds ih =>
    intro acc rest
    have hc := hds c (List.mem_cons_self _ _)
    simp only [List.cons_append, grabDigits, hc, if_pos, List.foldl_cons]
    exact ih (fun x hx => hds x (List.mem_cons_of_mem _ hx)) _ rest

theorem digitChar_toNat (n : Nat) (h : n < 10) : (Char.ofNat (48 + n)).toNat = 48 + n := by
  interval_cases n <;> decide

theorem isDigitCh_digitChar (n : Nat) (h : n < 10) : isDigitCh (Char.ofNat (48 + n)) = true := by
  interval_cases n <;> decide

theorem printNat_ne_nil (n : Nat) : printNat n ≠ [] := by
  rw [printNat]
  split <;> simp

theorem printNat_digits (n : Nat) : ∀ c ∈ printNat n, isDigitCh c = true := by
  induction n using Nat.strong_induction_on with
  | _ n ih =>
    intro c hc
    by_cases h : n < 10
    · rw [printNat, dif_pos h] at hc
      simp only [List.mem_singleton] at hc
      subst hc
      exact isDigitCh_digitChar n h
    · rw [printNat, dif_neg h] at hc
      rcases List.mem_append.1 hc with h1 | h2
      · exact ih (n / 10) (Nat.div_lt_self (by omega) (by omega)) c h1
      · simp only [List.mem_singleton] at h2
        subst h2
        exact isDigitCh_digitChar _ (Nat.mod_lt _ (by omega))

theorem printNat_val (n : Nat) :
    ∀ acc, List.foldl (fun a c => 10 * a + (c.toNat - 48)) acc (printNat n)
      = acc * 10 ^ (printNat n).length + n := by
  induction n using Nat.strong_induction_on with
  | _ n ih =>
    intro acc
    by_cases h : n < 10
    · rw [printNat, dif_pos h]
      simp [digitChar_toNat n h]
      omega
    · rw [printNat, dif_neg h]
      rw [List.foldl_append, ih (n / 10) (Nat.div_lt_self (by omega) (by omega)) acc]
      simp only [List.foldl_cons, List.foldl_nil, List.length_append, List.length_singleton]
      rw [digitChar_toNat _ (Nat.mod_lt _ (by omega))]
      have hmod : 48 + n % 10 - 48 = n % 10 := by omega
      rw [hmod]
      rw [pow_succ]
      have hdm := Nat.div_add_mod n 10
      ring_nf
      omega

theorem printNat_head_ne_zero (n : Nat) (hn : 1 ≤ n) :
    ∀ c, (printNat n).head? = some c → c ≠ '0' := by
  induction n using Nat.strong_induction_on with
  | _ n ih =>
    intro c hc
    by_cases h : n < 10
    · rw [printNat, dif_pos h] at hc
      simp only [List.head?_cons, Option.some.injEq] at hc
      subst hc
      intro habs
      have := digitChar_toNat n h
      rw [habs] at this
      simp only [show ('0').toNat = 48 from rfl] at this
      omega
    · rw [printNat, dif_neg h] at hc
      have hne := printNat_ne_nil (n / 10)
      rw [List.head?_append] at hc
      cases hh : (printNat (n / 10)).head? with
      | none =>
        exact absurd (List.head?_eq_none_iff.1 hh) hne
      | some c0 =>
        rw [hh] at hc
        have hc2 : c0 = c := by
          injection (show (some c0 : Option Char) = some c from hc)
        subst hc2
        exact ih (n / 10) (Nat.div_lt_self (by omega) (by omega)) (by omega) c0 hh



end LlmAxe

namespace LlmAxe

theorem parseUnsigned_printNat (n : Nat) (rest : List Char) (hrest : notDigitStart rest = true) :
    parseUnsigned (printNat n ++ rest) = some (n, rest) := by
  by_cases h0 : n = 0
  · subst h0
    rw [printNat]
    simp only [Nat.lt_irrefl, dif_pos (by omega : (0 : Nat) < 10)]
    show parseUnsigned (Char.ofNat 48 :: rest) = some (0, rest)
    rw [show Char.ofNat 48 = '0' from rfl]
    simp [parseUnsigned]
  · cases hpn : printNat n with
    | nil => exact absurd hpn (printNat_ne_nil n)
    | cons c0 tail =>
      have hc0dig : isDigitCh c0 = true := by
        apply printNat_digits n
        rw [hpn]
        exact List.mem_cons_self _ _
      have hc0ne : c0 ≠ '0' := by
        apply printNat_head_ne_zero n (by omega)
        rw [hpn]
        rfl
      have htaildig : ∀ c ∈ tail, isDigitCh c = true := by
        intro c hc
        apply printNat_digits n
        rw [hpn]
        exact List.mem_cons_of_mem _ hc
      rw [List.cons_append]
      show parseUnsigned (c0 :: (tail ++ rest)) = some (n, rest)
      rw [show parseUnsigned (c0 :: (tail ++ rest))
          = (if c0 = '0' then some (0, tail ++ rest)
            else if isDigitCh c0 then some (grabDigits (tail ++ rest) (c0.toNat - 48))
            else none) from rfl]
      rw [if_neg hc0ne, if_pos hc0dig]
      rw [grabDigits_chain tail htaildig]
      rw [grabDigits_notDigit rest _ hrest]
      have hval : List.foldl (fun a c => 10 * a + (c.toNat - 48)) 0 (printNat n)
          = 0 * 10 ^ (printNat n).length + n := printNat_val n 0
      rw [hpn] at hval
      simp only [List.foldl_cons, Nat.zero_mul, Nat.zero_add] at hval
      rw [show 10 * 0 + (c0.toNat - 48) = c0.toNat - 48 by omega] at hval
      rw [hval]

theorem isDigitCh_ne_minus (c : Char) (h : isDigitCh c = true) : c ≠ '-' := by
  intro habs
  subst habs
  exact absurd h (by decide)

theorem parseNumber_printInt (i : Int) (rest : List Char) (hrest : notDigitStart rest = true) :
    parseNumber (printInt i ++ rest) = some (i, rest) := by
  cases i with
  | ofNat n =>
    show parseNumber (printNat n ++ rest) = some ((n : Int), rest)
    cases hpn : printNat n with
    | nil => exact absurd hpn (printNat_ne_nil n)
    | cons c0 tail =>
      have hc0dig : isDigitCh c0 = true := by
        apply printNat_digits n
        rw [hpn]
        exact List.mem_cons_self _ _
      rw [List.cons_append]
      rw [show parseNumber (c0 :: (tail ++ rest))
          = (if c0 = '-' then
              match parseUnsigned (tail ++ rest) with
              | some (n, r) => some (-(n : Int), r)
              | none => none
            else
              match parseUnsigned (c0 :: (tail ++ rest)) with
              | some (n, r) => some ((n : Int), r)
              | none => none) from rfl]
      rw [if_neg (isDigitCh_ne_minus c0 hc0dig)]
      rw [← List.cons_append, ← hpn]
      rw [parseUnsigned_printNat n rest hrest]
  | negSucc m =>
    show parseNumber ('-' :: printNat (m + 1) ++ rest) = some (Int.negSucc m, rest)
    rw [List.cons_append]
    rw [show parseNumber ('-' :: (printNat (m + 1) ++ rest))
        = (if ('-' : Char) = '-' then
            match parseUnsigned (printNat (m + 1) ++ rest) with
            | some (n, r) => some (-(n : Int), r)
            | none => none
          else
            match parseUnsigned ('-' :: (printNat (m + 1) ++ rest)) with
            | some (n, r) => some ((n : Int), r)
            | none => none) from rfl]
    rw [if_pos rfl]
    rw [parseUnsigned_printNat (m + 1) rest hrest]
    simp only [Option.some.injEq, Prod.mk.injEq, and_true]
    rw [Int.negSucc_eq]
    push_cast
    ring



end LlmAxe

namespace LlmAxe

set_option maxHeartbeats 1000000 in
theorem parseStringBody_cons_lit (c : Char) (cs : List Char)
    (h1 : c ≠ '\x22') (h2 : c ≠ '\\') (h3 : ¬ c.toNat < 32) :
    parseStringBody (c :: cs) = (parseStringBody cs).map (fun p => (c :: p.1, p.2)) := by
  simp only [parseStringBody, h1, h2, h3]
  simp

theorem hexVal_hexDigitCh (k : Nat) (h : k < 16) : hexVal (hexDigitCh k) = some k := by
  interval_cases k <;> decide

theorem parseStringBody_escape (cs : List Char) :
    ∀ rest, parseStringBody (escapeChars cs ++ '\x22' :: rest)
      = (parseStringBody ('\x22' :: rest)).map (fun p => (cs ++ p.1, p.2)) := by
  induction cs with
  | nil =>
    intro rest
    simp [escapeChars]
  | cons c cs ih =>
    intro rest
    rw [show escapeChars (c :: cs) = escChar c ++ escapeChars cs from rfl]
    rw [List.append_assoc]
    by_cases h1 : c = '\x22'
    · subst h1
      rw [show escChar '\x22' = ['\\', '\x22'] from rfl]
      rw [show (['\\', '\x22'] : List Char) ++ (escapeChars cs ++ '\x22' :: rest)
          = '\\' :: '\x22' :: (escapeChars cs ++ '\x22' :: rest) from rfl]
      rw [show parseStringBody ('\\' :: '\x22' :: (escapeChars cs ++ '\x22' :: rest))
          = (parseStringBody (escapeChars cs ++ '\x22' :: rest)).map
              (fun p => ('\x22' :: p.1, p.2)) from rfl]
      rw [ih rest]
      cases parseStringBody ('\x22' :: rest) <;> simp
    · by_cases h2 : c = '\\'
      · subst h2
        rw [show escChar '\\' = ['\\', '\\'] from rfl]
        rw [show (['\\', '\\'] : List Char) ++ (escapeChars cs ++ '\x22' :: rest)
            = '\\' :: '\\' :: (escapeChars cs ++ '\x22' :: rest) from rfl]
        rw [show parseStringBody ('\\' :: '\\' :: (escapeChars cs ++ '\x22' :: rest))
            = (parseStringBody (escapeChars cs ++ '\x22' :: rest)).map
                (fun p => ('\\' :: p.1, p.2)) from rfl]
        rw [ih rest]
        cases parseStringBody ('\x22' :: rest) <;> simp
      · by_cases h3 : c.toNat < 32
        · rw [show escChar c = ['\\', 'u', '0', '0', hexDigitCh (c.toNat / 16),
              hexDigitCh (c.toNat % 16)] by
            rw [escChar, if_neg h1, if_neg h2, if_pos h3]]
          rw [show (['\\', 'u', '0', '0', hexDigitCh (c.toNat / 16),
                hexDigitCh (c.toNat % 16)] : List Char)
              ++ (escapeChars cs ++ '\x22' :: rest)
              = '\\' :: 'u' :: '0' :: '0' :: hexDigitCh (c.toNat / 16)
                :: hexDigitCh (c.toNat % 16) :: (escapeChars cs ++ '\x22' :: rest) from rfl]
          simp only [parseStringBody]
          rw [show hexVal '0' = some 0 from rfl]
          rw [hexVal_hexDigitCh (c.toNat / 16) (by omega)]
          rw [hexVal_hexDigitCh (c.toNat % 16) (by omega)]
          simp only
          have hcode : 4096 * 0 + 256 * 0 + 16 * (c.toNat / 16) + c.toNat % 16 = c.toNat := by
            omega
          rw [hcode]
          rw [if_neg (by omega : ¬(55296 ≤ c.toNat ∧ c.toNat ≤ 56319))]
          rw [if_neg (by omega : ¬(56320 ≤ c.toNat ∧ c.toNat ≤ 57343))]
          rw [ih rest]
          rw [Char.ofNat_toNat]
          rw [show parseStringBody ('\x22' :: rest) = some ([], rest) from rfl]
          simp
        · rw [show escChar c = [c] by rw [escChar, if_neg h1, if_neg h2, if_neg h3]]
          rw [List.singleton_append]
          rw [parseStringBody_cons_lit c _ h1 h2 h3]
          rw [ih rest]
          cases parseStringBody ('\x22' :: rest) <;> simp



end LlmAxe

namespace LlmAxe

theorem parseStringBody_print (s : List Char) (rest : List Char) :
    parseStringBody (escapeChars s ++ '\x22' :: rest) = some (s, rest) := by
  rw [parseStringBody_escape]
  rw [show parseStringBody ('\x22' :: rest) = some ([], rest) from rfl]
  simp

theorem printJson_arr (xs : List Json) :
    printJson (.arr xs) = '[' :: (sepJoin [',', ' '] (xs.map printJson) ++ [']']) := by
  rw [printJson]
  rw [List.attach_map_val xs printJson]

theorem printJson_obj (kvs : List (String × Json)) :
    printJson (.obj kvs) = '{' :: (sepJoin [',', ' ']
      (kvs.map (fun kv => '\x22' :: (escapeChars kv.1.data
        ++ ('\x22' :: ':' :: ' ' :: printJson kv.2)))) ++ ['}']) := by
  rw [printJson]
  congr 2
  rw [← List.attach_map_val kvs (fun kv => '\x22' :: (escapeChars kv.1.data
    ++ ('\x22' :: ':' :: ' ' :: printJson kv.2)))]

theorem jfuel_arr (xs : List Json) :
    jfuel (.arr xs) = 2 + (xs.map (fun x => jfuel x + 1)).sum := by
  rw [jfuel]
  rw [List.attach_map_val xs (fun x => jfuel x + 1)]

theorem jfuel_obj (kvs : List (String × Json)) :
    jfuel (.obj kvs) = 2 + (kvs.map (fun kv => jfuel kv.2 + 1)).sum := by
  rw [jfuel]
  rw [← List.attach_map_val kvs (fun kv => jfuel kv.2 + 1)]

theorem canonicalB_arr (xs : List Json) :
    canonicalB (.arr xs) = true ↔ ∀ x ∈ xs, canonicalB x = true := by
  rw [canonicalB]
  simp [List.all_eq_true]

theorem canonicalB_obj (kvs : List (String × Json)) :
    canonicalB (.obj kvs) = true ↔
      strNodupB (kvs.map Prod.fst) = true ∧ ∀ kv ∈ kvs, canonicalB kv.2 = true := by
  rw [canonicalB]
  simp [List.all_eq_true]



end LlmAxe

namespace LlmAxe

theorem Json.myInduction (P : Json → Prop)
    (h0 : P .null) (h1 : ∀ b, P (.bool b)) (h2 : ∀ n, P (.num n)) (h3 : ∀ s, P (.str s))
    (h4 : ∀ xs, (∀ x ∈ xs, P x) → P (.arr xs))
    (h5 : ∀ kvs, (∀ kv ∈ kvs, P (Prod.snd kv)) → P (.obj kvs)) : ∀ v, P v :=
  Json.rec (motive_1 := P) (motive_2 := fun xs => ∀ x ∈ xs, P x)
    (motive_3 := fun kvs => ∀ kv ∈ kvs, P (Prod.snd kv)) (motive_4 := fun kv => P kv.2)
    h0 h1 h2 h3 h4 h5
    (by intro x hx; cases hx)
    (by intro x xs ihx ihxs y hy
        cases hy with
        | head => exact ihx
        | tail _ h => exact ihxs y h)
    (by intro kv hkv; cases hkv)
    (by intro kv kvs ihkv ihkvs y hy
        cases hy with
        | head => exact ihkv
        | tail _ h => exact ihkvs y h)
    (by intro a b ihb; exact ihb)

theorem skipWs_not_ws (c : Char) (cs : List Char) (h : jsonWs c = false) :
    skipWs (c :: cs) = c :: cs := by
  simp [skipWs, h]

set_option maxHeartbeats 1000000 in
theorem parseValue_cons_ws (fuel : Nat) (c : Char) (cs : List Char) (h : jsonWs c = true) :
    parseValue (fuel + 1) (c :: cs) = parseValue (fuel + 1) cs := by
  simp only [parseValue]
  rw [show skipWs (c :: cs) = skipWs cs by simp [skipWs, h]]

theorem isDigitCh_facts (c : Char) (h : isDigitCh c = true) :
    jsonWs c = false ∧ c ≠ ']' ∧ c ≠ '{' ∧ c ≠ '[' ∧ c ≠ '\x22' ∧ c ≠ 't' ∧ c ≠ 'f'
      ∧ c ≠ 'n' := by
  refine ⟨?_, ?_, ?_, ?_, ?_, ?_, ?_, ?_⟩
  · cases hw : jsonWs c with
    | false => rfl
    | true =>
      exfalso
      simp only [jsonWs, Bool.or_eq_true, decide_eq_true_eq] at hw
      rcases hw with ((h1 | h1) | h1) | h1 <;> (subst h1; exact absurd h (by decide))
  all_goals intro habs
  all_goals subst habs
  all_goals exact absurd h (by decide)

theorem printInt_shape (i : Int) :
    ∃ c t, printInt i = c :: t ∧ (isDigitCh c = true ∨ c = '-') := by
  cases i with
  | ofNat n =>
    cases hpn : printNat n with
    | nil => exact absurd hpn (printNat_ne_nil n)
    | cons c0 tail =>
      refine ⟨c0, tail, hpn, Or.inl ?_⟩
      apply printNat_digits n
      rw [hpn]
      exact List.mem_cons_self _ _
  | negSucc m => exact ⟨'-', printNat (m + 1), rfl, Or.inr rfl⟩



end LlmAxe

namespace LlmAxe

set_option maxHeartbeats 1000000 in
theorem parseValue_num_dispatch (fuel : Nat) (c : Char) (cs : List Char)
    (hws : jsonWs c = false) (h1 : c ≠ '{') (h2 : c ≠ '[') (h3 : c ≠ '\x22')
    (h4 : c ≠ 't') (h5 : c ≠ 'f') (h6 : c ≠ 'n') :
    parseValue (fuel + 1) (c :: cs)
      = (match parseNumber (c :: cs) with
        | some (n, r) => some (Json.num n, r)
        | none => none) := by
  simp only [parseValue]
  rw [skipWs_not_ws c cs hws]
  split
  · rename_i heq
    injection heq with heqc
    exact absurd heqc h1
  · rename_i heq
    injection heq with heqc
    exact absurd heqc h2
  · rename_i heq
    injection heq with heqc
    exact absurd heqc h3
  · rename_i heq
    injection heq with heqc
    exact absurd heqc h4
  · rename_i heq
    injection heq with heqc
    exact absurd heqc h5
  · rename_i heq
    injection heq with heqc
    exact absurd heqc h6
  · rfl



end LlmAxe

namespace LlmAxe

set_option maxHeartbeats 1000000 in
theorem parseValue_arr_dispatch (fuel : Nat) (c : Char) (cs : List Char)
    (hws : jsonWs c = false) (hne : c ≠ ']') :
    parseValue (fuel + 1) ('[' :: c :: cs) = parseElems fuel (c :: cs) [] := by
  simp only [parseValue]
  rw [show skipWs ('[' :: c :: cs) = '[' :: c :: cs from skipWs_not_ws _ _ (by decide)]
  simp only
  rw [skipWs_not_ws c cs hws]
  split
  · rename_i heq
    injection heq with heqc
    exact absurd heqc hne
  · rfl



end LlmAxe

namespace LlmAxe

theorem dictInsert_notMem {α : Type} (acc : List (String × α)) (k : String) (v : α)
    (h : (acc.map Prod.fst).contains k = false) : dictInsert acc k v = acc ++ [(k, v)] := by
  induction acc with
  | nil => rfl
  | cons kv acc ih =>
    obtain ⟨k0, v0⟩ := kv
    simp only [List.map_cons, List.contains_cons, Bool.or_eq_false_iff] at h
    simp only [dictInsert]
    rw [if_neg ?kne]
    case kne =>
      intro habs
      subst habs
      simp at h
    rw [ih h.2]
    rfl



end LlmAxe

namespace LlmAxe

theorem parseElems_cons_ws (g : Nat) (c : Char) (cs : List Char) (acc : List Json)
    (hws : jsonWs c = true) (hg : 1 ≤ g) :
    parseElems (g + 1) (c :: cs) acc = parseElems (g + 1) cs acc := by
  obtain ⟨h, rfl⟩ : ∃ h, g = h + 1 := ⟨g - 1, by omega⟩
  simp only [parseElems]
  rw [parseValue_cons_ws h c cs hws]

theorem jfuel_pos (v : Json) : 1 ≤ jfuel v := by
  cases v <;> rw [jfuel] <;> omega

theorem parseElems_print (xs : List Json)
    (hIH : ∀ x ∈ xs, ∀ fuel rest, jfuel x ≤ fuel → notDigitStart rest = true →
      canonicalB x = true → parseValue fuel (printJson x ++ rest) = some (x, rest)) :
    ∀ (acc : List Json) (fuel : Nat) (rest : List Char),
      (xs.map (fun x => jfuel x + 1)).sum ≤ fuel →
      (∀ x ∈ xs, canonicalB x = true) →
      xs ≠ [] →
      parseElems fuel (sepJoin [',', ' '] (xs.map printJson) ++ ']' :: rest) acc
        = some (.arr (acc ++ xs), rest) := by
  induction xs with
  | nil =>
    intro acc fuel rest _ _ hne
    exact absurd rfl hne
  | cons x xs ih =>
    intro acc fuel rest hfuel hcan _
    have hx := hIH x (List.mem_cons_self _ _)
    have hxcan := hcan x (List.mem_cons_self _ _)
    have hjx : 1 ≤ jfuel x := jfuel_pos x
    cases xs with
    | nil =>
      simp only [List.map_cons, List.map_nil, List.sum_cons, List.sum_nil] at hfuel
      obtain ⟨f, rfl⟩ : ∃ f, fuel = f + 1 := ⟨fuel - 1, by omega⟩
      simp only [List.map_cons, List.map_nil]
      rw [show sepJoin [',', ' '] [printJson x] = printJson x from rfl]
      simp only [parseElems]
      rw [hx f (']' :: rest) (by omega) rfl hxcan]
      rfl
    | cons y ys =>
      simp only [List.map_cons, List.sum_cons] at hfuel
      obtain ⟨f, rfl⟩ : ∃ f, fuel = f + 1 := ⟨fuel - 1, by omega⟩
      simp only [List.map_cons]
      rw [show sepJoin [',', ' '] (printJson x :: printJson y :: List.map printJson ys)
          = printJson x ++ [',', ' ']
            ++ sepJoin [',', ' '] (printJson y :: List.map printJson ys) from rfl]
      rw [List.append_assoc, List.append_assoc]
      simp only [List.cons_append, List.nil_append]
      simp only [parseElems]
      rw [hx f (',' :: (' ' :: (sepJoin [',', ' '] (printJson y :: List.map printJson ys)
        ++ ']' :: rest))) (by omega) rfl hxcan]
      dsimp only
      rw [show skipWs (',' :: (' ' :: (sepJoin [',', ' ']
          (printJson y :: List.map printJson ys) ++ ']' :: rest)))
        = ',' :: (' ' :: (sepJoin [',', ' '] (printJson y :: List.map printJson ys)
          ++ ']' :: rest)) from skipWs_not_ws _ _ (by decide)]
      simp only
      have hjy : 1 ≤ jfuel y := jfuel_pos y
      have hfge : 1 ≤ f := by omega
      obtain ⟨g, rfl⟩ : ∃ g, f = g + 1 := ⟨f - 1, by omega⟩
      rw [parseElems_cons_ws g ' ' _ _ (by decide) (by omega)]
      have hrec := ih (fun z hz => hIH z (List.mem_cons_of_mem _ hz)) (acc ++ [x]) (g + 1) rest
        (by simp only [List.map_cons, List.sum_cons]; omega)
        (fun z hz => hcan z (List.mem_cons_of_mem _ hz)) (by simp)
      simp only [List.map_cons] at hrec
      rw [hrec]
      simp



theorem skipWs_cons_ws (c : Char) (cs : List Char) (h : jsonWs c = true) :
    skipWs (c :: cs) = skipWs cs := by
  simp [skipWs, h]

theorem sepJoin_head_cons (sep : List Char) (c : Char) (a : List Char) (r : List (List Char)) :
    ∃ t, sepJoin sep ((c :: a) :: r) = c :: t := by
  cases r with
  | nil => exact ⟨a, rfl⟩
  | cons q qs => exact ⟨(a ++ sep) ++ sepJoin sep (q :: qs), rfl⟩

set_option maxHeartbeats 1000000 in
theorem parseMembers_print (kvs : List (String × Json))
    (hIH : ∀ kv ∈ kvs, ∀ (fuel : Nat) (rest : List Char), jfuel (Prod.snd kv) ≤ fuel →
      notDigitStart rest = true → canonicalB (Prod.snd kv) = true →
      parseValue fuel (printJson (Prod.snd kv) ++ rest) = some (Prod.snd kv, rest)) :
    ∀ (acc : List (String × Json)) (fuel : Nat) (rest : List Char),
      (kvs.map (fun kv => jfuel kv.2 + 1)).sum ≤ fuel →
      (∀ kv ∈ kvs, canonicalB kv.2 = true) →
      (∀ kv ∈ kvs, kv.1 ∉ acc.map Prod.fst) →
      strNodupB (kvs.map Prod.fst) = true →
      kvs ≠ [] →
      parseMembers fuel
        (sepJoin [',', ' '] (kvs.map (fun kv => '\x22' :: (escapeChars kv.1.data
          ++ ('\x22' :: ':' :: ' ' :: printJson kv.2)))) ++ '\x7d' :: rest) acc
        = some (.obj (acc ++ kvs), rest) := by
  induction kvs with
  | nil =>
    intro acc fuel rest _ _ _ _ hne
    exact absurd rfl hne
  | cons kv kvs ih =>
    obtain ⟨kx, vx⟩ := kv
    intro acc fuel rest hfuel hcan hdisj hnodup _
    have hx := hIH (kx, vx) (List.mem_cons_self _ _)
    have hxcan := hcan (kx, vx) (List.mem_cons_self _ _)
    have hxdisj := hdisj (kx, vx) (List.mem_cons_self _ _)
    have hjx : 1 ≤ jfuel vx := jfuel_pos vx
    simp only at hx hxcan hxdisj
    have hxnot : (List.map Prod.fst acc).contains kx = false := by
      simp [hxdisj]
    cases kvs with
    | nil =>
      simp only [List.map_cons, List.map_nil, List.sum_cons, List.sum_nil] at hfuel
      obtain ⟨f, rfl⟩ : ∃ f, fuel = f + 1 := ⟨fuel - 1, by omega⟩
      simp only [List.map_cons, List.map_nil]
      rw [show sepJoin [',', ' ']
          [('\x22' :: (escapeChars kx.data ++ ('\x22' :: ':' :: ' ' :: printJson vx)))]
        = '\x22' :: (escapeChars kx.data ++ ('\x22' :: ':' :: ' ' :: printJson vx)) from rfl]
      simp only [parseMembers, List.cons_append, List.append_assoc]
      rw [parseStringBody_print kx.data (':' :: ' ' :: (printJson vx ++ '\x7d' :: rest))]
      dsimp only
      rw [show skipWs (':' :: ' ' :: (printJson vx ++ '\x7d' :: rest))
        = ':' :: ' ' :: (printJson vx ++ '\x7d' :: rest) from skipWs_not_ws _ _ (by decide)]
      simp only
      obtain ⟨g, rfl⟩ : ∃ g, f = g + 1 := ⟨f - 1, by omega⟩
      rw [parseValue_cons_ws g ' ' _ (by decide)]
      rw [hx (g + 1) ('\x7d' :: rest) (by omega) rfl hxcan]
      dsimp only
      rw [show skipWs ('\x7d' :: rest) = '\x7d' :: rest from skipWs_not_ws _ _ (by decide)]
      rw [show String.mk kx.data = kx from rfl]
      rw [dictInsert_notMem acc kx vx hxnot]
      rfl
    | cons kw kws =>
      simp only [List.map_cons, List.sum_cons] at hfuel
      obtain ⟨f, rfl⟩ : ∃ f, fuel = f + 1 := ⟨fuel - 1, by omega⟩
      simp only [List.map_cons]
      rw [show sepJoin [',', ' ']
          (('\x22' :: (escapeChars kx.data ++ ('\x22' :: ':' :: ' ' :: printJson vx)))
            :: ('\x22' :: (escapeChars kw.1.data ++ ('\x22' :: ':' :: ' ' :: printJson kw.2)))
            :: List.map (fun kv => '\x22' :: (escapeChars kv.1.data
                ++ ('\x22' :: ':' :: ' ' :: printJson kv.2))) kws)
        = ('\x22' :: (escapeChars kx.data ++ ('\x22' :: ':' :: ' ' :: printJson vx)))
          ++ [',', ' ']
          ++ sepJoin [',', ' ']
            (('\x22' :: (escapeChars kw.1.data ++ ('\x22' :: ':' :: ' ' :: printJson kw.2)))
              :: List.map (fun kv => '\x22' :: (escapeChars kv.1.data
                  ++ ('\x22' :: ':' :: ' ' :: printJson kv.2))) kws) from rfl]
      rw [List.append_assoc, List.append_assoc]
      simp only [List.cons_append, List.nil_append, List.append_assoc]
      simp only [parseMembers]
      rw [parseStringBody_print kx.data]
      dsimp only
      rw [show skipWs (':' :: ' ' :: (printJson vx ++ ',' :: ' '
          :: (sepJoin [',', ' ']
            (('\x22' :: (escapeChars kw.1.data ++ ('\x22' :: ':' :: ' ' :: printJson kw.2)))
              :: List.map (fun kv => '\x22' :: (escapeChars kv.1.data
                  ++ ('\x22' :: ':' :: ' ' :: printJson kv.2))) kws) ++ '\x7d' :: rest)))
        = ':' :: ' ' :: (printJson vx ++ ',' :: ' '
          :: (sepJoin [',', ' ']
            (('\x22' :: (escapeChars kw.1.data ++ ('\x22' :: ':' :: ' ' :: printJson kw.2)))
              :: List.map (fun kv => '\x22' :: (escapeChars kv.1.data
                  ++ ('\x22' :: ':' :: ' ' :: printJson kv.2))) kws) ++ '\x7d' :: rest))
        from skipWs_not_ws _ _ (by decide)]
      simp only
      obtain ⟨g, rfl⟩ : ∃ g, f = g + 1 := ⟨f - 1, by omega⟩
      rw [parseValue_cons_ws g ' ' _ (by decide)]
      rw [hx (g + 1) (',' :: ' '
          :: (sepJoin [',', ' ']
            (('\x22' :: (escapeChars kw.1.data ++ ('\x22' :: ':' :: ' ' :: printJson kw.2)))
              :: List.map (fun kv => '\x22' :: (escapeChars kv.1.data
                  ++ ('\x22' :: ':' :: ' ' :: printJson kv.2))) kws) ++ '\x7d' :: rest))
        (by omega) rfl hxcan]
      dsimp only
      rw [show skipWs (',' :: ' '
          :: (sepJoin [',', ' ']
            (('\x22' :: (escapeChars kw.1.data ++ ('\x22' :: ':' :: ' ' :: printJson kw.2)))
              :: List.map (fun kv => '\x22' :: (escapeChars kv.1.data
                  ++ ('\x22' :: ':' :: ' ' :: printJson kv.2))) kws) ++ '\x7d' :: rest))
        = ',' :: ' '
          :: (sepJoin [',', ' ']
            (('\x22' :: (escapeChars kw.1.data ++ ('\x22' :: ':' :: ' ' :: printJson kw.2)))
              :: List.map (fun kv => '\x22' :: (escapeChars kv.1.data
                  ++ ('\x22' :: ':' :: ' ' :: printJson kv.2))) kws) ++ '\x7d' :: rest)
        from skipWs_not_ws _ _ (by decide)]
      simp only
      rw [skipWs_cons_ws ' ' _ (by decide)]
      have hskip : skipWs ((sepJoin [',', ' ']
            (('\x22' :: (escapeChars kw.1.data ++ ('\x22' :: ':' :: ' ' :: printJson kw.2)))
              :: List.map (fun kv => '\x22' :: (escapeChars kv.1.data
                  ++ ('\x22' :: ':' :: ' ' :: printJson kv.2))) kws) ++ '\x7d' :: rest))
          = (sepJoin [',', ' ']
            (('\x22' :: (escapeChars kw.1.data ++ ('\x22' :: ':' :: ' ' :: printJson kw.2)))
              :: List.map (fun kv => '\x22' :: (escapeChars kv.1.data
                  ++ ('\x22' :: ':' :: ' ' :: printJson kv.2))) kws) ++ '\x7d' :: rest) := by
        obtain ⟨t, ht⟩ := sepJoin_head_cons [',', ' '] '\x22'
          (escapeChars kw.1.data ++ ('\x22' :: ':' :: ' ' :: printJson kw.2))
          (List.map (fun kv => '\x22' :: (escapeChars kv.1.data
            ++ ('\x22' :: ':' :: ' ' :: printJson kv.2))) kws)
        rw [ht, List.cons_append]
        exact skipWs_not_ws _ _ (by decide)
      rw [hskip]
      rw [show String.mk kx.data = kx from rfl]
      rw [dictInsert_notMem acc kx vx hxnot]
      have hnodup2 : strNodupB (List.map Prod.fst (kw :: kws)) = true := by
        simp only [List.map_cons, strNodupB, Bool.and_eq_true] at hnodup ⊢
        exact hnodup.2
      have hxnotin : kx ∉ List.map Prod.fst (kw :: kws) := by
        simp only [List.map_cons, strNodupB, Bool.and_eq_true, Bool.not_eq_true'] at hnodup
        have h1 := hnodup.1
        rw [List.map_cons]
        simpa using h1
      have hrec := ih (fun z hz => hIH z (List.mem_cons_of_mem _ hz)) (acc ++ [(kx, vx)])
        (g + 1) rest
        (by simp only [List.map_cons, List.sum_cons]; omega)
        (fun z hz => hcan z (List.mem_cons_of_mem _ hz))
        (by
          intro z hz
          simp only [List.map_append, List.map_cons, List.map_nil, List.mem_append,
            List.mem_cons, List.not_mem_nil]
          rintro (hmem | hk)
          · exact hdisj z (List.mem_cons_of_mem _ hz) hmem
          · rcases hk with hk | hk
            · exact hxnotin (hk ▸ List.mem_map_of_mem Prod.fst hz)
            · exact hk)
        hnodup2 (by simp)
      simp only [List.map_cons] at hrec
      rw [hrec]
      simp

theorem parseValue_obj_dispatch (fuel : Nat) (x : List Char) :
    parseValue (fuel + 1) ('\x7b' :: '\x22' :: x) = parseMembers fuel ('\x22' :: x) [] := rfl

theorem printJson_head (v : Json) :
    ∃ c t, printJson v = c :: t ∧ jsonWs c = false ∧ c ≠ ']' := by
  cases v with
  | null =>
    refine ⟨'n', ['u', 'l', 'l'], ?_, by decide, by decide⟩
    rw [printJson]
  | bool b =>
    cases b with
    | false =>
      refine ⟨'f', ['a', 'l', 's', 'e'], ?_, by decide, by decide⟩
      rw [printJson]
    | true =>
      refine ⟨'t', ['r', 'u', 'e'], ?_, by decide, by decide⟩
      rw [printJson]
  | num n =>
    obtain ⟨c, t, hct, hc⟩ := printInt_shape n
    refine ⟨c, t, ?_, ?_, ?_⟩
    · rw [printJson]
      exact hct
    · rcases hc with hd | hm
      · exact (isDigitCh_facts c hd).1
      · subst hm; decide
    · rcases hc with hd | hm
      · exact (isDigitCh_facts c hd).2.1
      · subst hm; decide
  | str s =>
    refine ⟨'\x22', escapeChars s.data ++ ['\x22'], ?_, by decide, by decide⟩
    rw [printJson]
  | arr xs =>
    refine ⟨'[', sepJoin [',', ' '] (xs.map printJson) ++ [']'], ?_, by decide, by decide⟩
    rw [printJson_arr]
  | obj kvs =>
    refine ⟨'\x7b', sepJoin [',', ' '] (kvs.map (fun kv => '\x22' :: (escapeChars kv.1.data
      ++ ('\x22' :: ':' :: ' ' :: printJson kv.2)))) ++ ['\x7d'], ?_, by decide, by decide⟩
    rw [printJson_obj]

set_option maxHeartbeats 1600000 in
theorem parseValue_print : ∀ (v : Json) (fuel : Nat) (rest : List Char),
    jfuel v ≤ fuel → notDigitStart rest = true → canonicalB v = true →
    parseValue fuel (printJson v ++ rest) = some (v, rest) := by
  refine Json.myInduction _ ?_ ?_ ?_ ?_ ?_ ?_
  · intro fuel rest hf _ _
    obtain ⟨f, rfl⟩ : ∃ f, fuel = f + 1 :=
      ⟨fuel - 1, by have := jfuel_pos Json.null; omega⟩
    rw [show printJson Json.null = ['n', 'u', 'l', 'l'] from by rw [printJson]]
    exact rfl
  · intro b fuel rest hf _ _
    obtain ⟨f, rfl⟩ : ∃ f, fuel = f + 1 :=
      ⟨fuel - 1, by have := jfuel_pos (Json.bool b); omega⟩
    cases b with
    | false =>
      rw [show printJson (Json.bool false) = ['f', 'a', 'l', 's', 'e'] from by rw [printJson]]
      exact rfl
    | true =>
      rw [show printJson (Json.bool true) = ['t', 'r', 'u', 'e'] from by rw [printJson]]
      exact rfl
  · intro n fuel rest hf hnd _
    obtain ⟨f, rfl⟩ : ∃ f, fuel = f + 1 :=
      ⟨fuel - 1, by have := jfuel_pos (Json.num n); omega⟩
    rw [show printJson (Json.num n) = printInt n from by rw [printJson]]
    obtain ⟨c, t, hct, hc⟩ := printInt_shape n
    rw [hct, List.cons_append]
    have hfacts : jsonWs c = false ∧ c ≠ '\x7b' ∧ c ≠ '[' ∧ c ≠ '\x22' ∧ c ≠ 't'
        ∧ c ≠ 'f' ∧ c ≠ 'n' := by
      rcases hc with hd | hm
      · have h := isDigitCh_facts c hd
        exact ⟨h.1, h.2.2.1, h.2.2.2.1, h.2.2.2.2.1, h.2.2.2.2.2.1, h.2.2.2.2.2.2.1,
          h.2.2.2.2.2.2.2⟩
      · subst hm
        exact ⟨by decide, by decide, by decide, by decide, by decide, by decide, by decide⟩
    rw [parseValue_num_dispatch f c (t ++ rest) hfacts.1 hfacts.2.1 hfacts.2.2.1
      hfacts.2.2.2.1 hfacts.2.2.2.2.1 hfacts.2.2.2.2.2.1 hfacts.2.2.2.2.2.2]
    rw [← List.cons_append, ← hct]
    rw [parseNumber_printInt n rest hnd]
  · intro s fuel rest hf _ _
    obtain ⟨f, rfl⟩ : ∃ f, fuel = f + 1 :=
      ⟨fuel - 1, by have := jfuel_pos (Json.str s); omega⟩
    rw [show printJson (Json.str s) = '\x22' :: (escapeChars s.data ++ ['\x22'])
      from by rw [printJson]]
    rw [List.cons_append, List.append_assoc, List.singleton_append]
    rw [show parseValue (f + 1) ('\x22' :: (escapeChars s.data ++ '\x22' :: rest))
        = (match parseStringBody (escapeChars s.data ++ '\x22' :: rest) with
           | some (content, r) => some (Json.str (String.mk content), r)
           | none => none) from rfl]
    rw [parseStringBody_print s.data rest]
  · intro xs hIH fuel rest hf hnd hcanon
    cases xs with
    | nil =>
      obtain ⟨f, rfl⟩ : ∃ f, fuel = f + 1 :=
        ⟨fuel - 1, by have := jfuel_pos (Json.arr []); omega⟩
      rw [printJson_arr]
      simp only [List.map_nil]
      rw [show sepJoin [',', ' '] ([] : List (List Char)) = [] from rfl]
      simp only [List.nil_append, List.cons_append, List.singleton_append]
      exact rfl
    | cons y ys =>
      rw [canonicalB_arr] at hcanon
      rw [jfuel_arr] at hf
      obtain ⟨f, rfl⟩ : ∃ f, fuel = f + 1 := ⟨fuel - 1, by omega⟩
      have hpe := parseElems_print (y :: ys) hIH [] f rest
        (by simp only [List.map_cons, List.sum_cons] at hf ⊢; omega) hcanon (by simp)
      simp only [List.map_cons] at hpe
      rw [printJson_arr]
      simp only [List.map_cons]
      obtain ⟨c, t, hct, hws, hne⟩ := printJson_head y
      rw [hct]
      obtain ⟨t2, ht2⟩ := sepJoin_head_cons [',', ' '] c t (List.map printJson ys)
      rw [List.cons_append, List.append_assoc, List.singleton_append, ht2, List.cons_append]
      rw [parseValue_arr_dispatch f c (t2 ++ ']' :: rest) hws hne]
      rw [← List.cons_append, ← ht2, ← hct]
      rw [hpe]
      simp
  · intro kvs hIH fuel rest hf hnd hcanon
    cases kvs with
    | nil =>
      obtain ⟨f, rfl⟩ : ∃ f, fuel = f + 1 :=
        ⟨fuel - 1, by have := jfuel_pos (Json.obj []); omega⟩
      rw [printJson_obj]
      simp only [List.map_nil]
      rw [show sepJoin [',', ' '] ([] : List (List Char)) = [] from rfl]
      simp only [List.nil_append, List.cons_append, List.singleton_append]
      exact rfl
    | cons kw kws =>
      rw [canonicalB_obj] at hcanon
      rw [jfuel_obj] at hf
      obtain ⟨f, rfl⟩ : ∃ f, fuel = f + 1 := ⟨fuel - 1, by omega⟩
      have hpm := parseMembers_print (kw :: kws) hIH [] f rest
        (by simp only [List.map_cons, List.sum_cons] at hf ⊢; omega)
        hcanon.2 (by intro kv _; simp) hcanon.1 (by simp)
      simp only [List.map_cons] at hpm
      rw [printJson_obj]
      simp only [List.map_cons]
      obtain ⟨t2, ht2⟩ := sepJoin_head_cons [',', ' '] '\x22'
        (escapeChars kw.1.data ++ ('\x22' :: ':' :: ' ' :: printJson kw.2))
        (List.map (fun kv => '\x22' :: (escapeChars kv.1.data
          ++ ('\x22' :: ':' :: ' ' :: printJson kv.2))) kws)
      rw [List.cons_append, List.append_assoc, List.singleton_append, ht2, List.cons_append]
      rw [parseValue_obj_dispatch f (t2 ++ '\x7d' :: rest)]
      rw [← List.cons_append, ← ht2]
      rw [hpm]
      simp

theorem sum_le_sepJoin_arr (xs : List Json)
    (hIH : ∀ x ∈ xs, jfuel x ≤ 2 * (printJson x).length) :
    (xs.map (fun x => jfuel x + 1)).sum
      ≤ 2 * (sepJoin [',', ' '] (xs.map printJson)).length + 2 := by
  induction xs with
  | nil => simp [sepJoin]
  | cons y ys ih =>
    cases ys with
    | nil =>
      simp only [List.map_cons, List.map_nil, List.sum_cons, List.sum_nil]
      have hy := hIH y (List.mem_cons_self _ _)
      rw [show sepJoin [',', ' '] [printJson y] = printJson y from rfl]
      omega
    | cons z zs =>
      simp only [List.map_cons, List.sum_cons]
      rw [show sepJoin [',', ' '] (printJson y :: printJson z :: List.map printJson zs)
        = printJson y ++ [',', ' '] ++ sepJoin [',', ' '] (printJson z :: List.map printJson zs)
        from rfl]
      have hy := hIH y (List.mem_cons_self _ _)
      have ihz := ih (fun x hx => hIH x (List.mem_cons_of_mem _ hx))
      simp only [List.map_cons, List.sum_cons, List.length_append, List.length_cons,
        List.length_nil] at ihz ⊢
      omega

theorem sum_le_sepJoin_obj (kvs : List (String × Json))
    (hIH : ∀ kv ∈ kvs, jfuel kv.2 ≤ 2 * (printJson kv.2).length) :
    (kvs.map (fun kv => jfuel kv.2 + 1)).sum
      ≤ 2 * (sepJoin [',', ' '] (kvs.map (fun kv => '\x22' :: (escapeChars kv.1.data
          ++ ('\x22' :: ':' :: ' ' :: printJson kv.2))))).length + 2 := by
  induction kvs with
  | nil => simp [sepJoin]
  | cons y ys ih =>
    cases ys with
    | nil =>
      simp only [List.map_cons, List.map_nil, List.sum_cons, List.sum_nil]
      have hy := hIH y (List.mem_cons_self _ _)
      rw [show sepJoin [',', ' '] [('\x22' :: (escapeChars y.1.data
          ++ ('\x22' :: ':' :: ' ' :: printJson y.2)))]
        = '\x22' :: (escapeChars y.1.data ++ ('\x22' :: ':' :: ' ' :: printJson y.2)) from rfl]
      simp only [List.length_cons, List.length_append]
      omega
    | cons z zs =>
      simp only [List.map_cons, List.sum_cons]
      rw [show sepJoin [',', ' ']
          (('\x22' :: (escapeChars y.1.data ++ ('\x22' :: ':' :: ' ' :: printJson y.2)))
            :: ('\x22' :: (escapeChars z.1.data ++ ('\x22' :: ':' :: ' ' :: printJson z.2)))
            :: List.map (fun kv => '\x22' :: (escapeChars kv.1.data
                ++ ('\x22' :: ':' :: ' ' :: printJson kv.2))) zs)
        = ('\x22' :: (escapeChars y.1.data ++ ('\x22' :: ':' :: ' ' :: printJson y.2)))
          ++ [',', ' ']
          ++ sepJoin [',', ' ']
            (('\x22' :: (escapeChars z.1.data ++ ('\x22' :: ':' :: ' ' :: printJson z.2)))
              :: List.map (fun kv => '\x22' :: (escapeChars kv.1.data
                  ++ ('\x22' :: ':' :: ' ' :: printJson kv.2))) zs) from rfl]
      have hy := hIH y (List.mem_cons_self _ _)
      have ihz := ih (fun x hx => hIH x (List.mem_cons_of_mem _ hx))
      simp only [List.map_cons, List.sum_cons, List.length_append, List.length_cons,
        List.length_nil] at ihz ⊢
      omega

theorem jfuel_le_len : ∀ v : Json, jfuel v ≤ 2 * (printJson v).length := by
  refine Json.myInduction _ ?_ ?_ ?_ ?_ ?_ ?_
  · rw [show printJson Json.null = ['n', 'u', 'l', 'l'] from by rw [printJson]]
    rw [show jfuel Json.null = 1 from by rw [jfuel]]
    decide
  · intro b
    cases b with
    | false =>
      rw [show printJson (Json.bool false) = ['f', 'a', 'l', 's', 'e'] from by rw [printJson]]
      rw [show jfuel (Json.bool false) = 1 from by rw [jfuel]]
      decide
    | true =>
      rw [show printJson (Json.bool true) = ['t', 'r', 'u', 'e'] from by rw [printJson]]
      rw [show jfuel (Json.bool true) = 1 from by rw [jfuel]]
      decide
  · intro n
    rw [show printJson (Json.num n) = printInt n from by rw [printJson]]
    rw [show jfuel (Json.num n) = 1 from by rw [jfuel]]
    obtain ⟨c, t, hct, _⟩ := printInt_shape n
    rw [hct]
    simp only [List.length_cons]
    omega
  · intro s
    rw [show printJson (Json.str s) = '\x22' :: (escapeChars s.data ++ ['\x22'])
      from by rw [printJson]]
    rw [show jfuel (Json.str s) = 1 from by rw [jfuel]]
    simp only [List.length_cons]
    omega
  · intro xs hIH
    rw [jfuel_arr, printJson_arr]
    have h := sum_le_sepJoin_arr xs hIH
    simp only [List.length_cons, List.length_append, List.length_singleton]
    omega
  · intro kvs hIH
    rw [jfuel_obj, printJson_obj]
    have h := sum_le_sepJoin_obj kvs hIH
    simp only [List.length_cons, List.length_append, List.length_singleton]
    omega

theorem jsonParse_print (v : Json) (hc : canonicalB v = true) :
    jsonParse (printJson v) = some v := by
  have hfd : jfuel v ≤ 2 * (printJson v).length + 2 := by
    have := jfuel_le_len v
    omega
  have h := parseValue_print v (2 * (printJson v).length + 2) [] hfd rfl hc
  rw [List.append_nil] at h
  simp only [jsonParse]
  rw [h]
  rfl

theorem dictGet_of_mem (L : List (String × Json)) :
    strNodupB (L.map Prod.fst) = true → ∀ k v, (k, v) ∈ L → dictGet L k = some v := by
  induction L with
  | nil =>
    intro _ k v h
    exact absurd h (List.not_mem_nil _)
  | cons kv0 L ih =>
    obtain ⟨k0, v0⟩ := kv0
    intro hnd k v hmem
    simp only [List.map_cons, strNodupB, Bool.and_eq_true, Bool.not_eq_true'] at hnd
    rcases List.mem_cons.mp hmem with heq | htail
    · injection heq with h1 h2
      subst h1
      subst h2
      simp [dictGet]
    · by_cases hk : k0 = k
      · exfalso
        subst hk
        have hin : k0 ∈ L.map Prod.fst := List.mem_map_of_mem Prod.fst htail
        have hno : k0 ∉ L.map Prod.fst := by simpa using hnd.1
        exact hno hin
      · simp only [dictGet, if_neg hk]
        exact ih hnd.2 k v htail

theorem foldl_dictInsert_eq_map {α : Type} (key : α → String) (val : α → Json) :
    ∀ (l : List α) (acc : List (String × Json)),
      strNodupB (l.map key) = true →
      (∀ x ∈ l, key x ∉ acc.map Prod.fst) →
      l.foldl (fun acc x => dictInsert acc (key x) (val x)) acc
        = acc ++ l.map (fun x => (key x, val x)) := by
  intro l
  induction l with
  | nil =>
    intro acc _ _
    simp
  | cons a l ih =>
    intro acc hnd hdisj
    simp only [List.map_cons, strNodupB, Bool.and_eq_true, Bool.not_eq_true'] at hnd
    have ha : (acc.map Prod.fst).contains (key a) = false := by
      simp [hdisj a (List.mem_cons_self _ _)]
    have hanotin : key a ∉ l.map key := by simpa using hnd.1
    simp only [List.foldl_cons]
    rw [dictInsert_notMem acc (key a) (val a) ha]
    rw [ih (acc ++ [(key a, val a)]) hnd.2 (by
      intro x hx
      simp only [List.map_append, List.map_cons, List.map_nil, List.mem_append,
        List.mem_cons, List.not_mem_nil]
      rintro (hm | hk | hfalse)
      · exact hdisj x (List.mem_cons_of_mem _ hx) hm
      · exact hanotin (hk ▸ List.mem_map_of_mem key hx)
      · exact hfalse)]
    simp

theorem enumFrom_names : ∀ (ps : List Param) (n : Nat),
    (List.enumFrom n ps).map (fun ip => ip.2.name) = ps.map Param.name := by
  intro ps
  induction ps with
  | nil => intro n; rfl
  | cons p ps ih =>
    intro n
    simp only [List.enumFrom, List.map_cons]
    rw [ih]

theorem enumFrom_snd_mem : ∀ (ps : List Param) (n : Nat) (x : Nat × Param),
    x ∈ List.enumFrom n ps → x.2 ∈ ps := by
  intro ps
  induction ps with
  | nil =>
    intro n x h
    exact absurd h (List.not_mem_nil _)
  | cons p ps ih =>
    intro n x h
    simp only [List.enumFrom, List.mem_cons] at h
    rcases h with rfl | h
    · exact List.mem_cons_self _ _
    · exact List.mem_cons_of_mem _ (ih (n + 1) x h)

theorem funcParamsVal_eq (f : Func) (hp : strNodupB (f.params.map Param.name) = true) :
    funcParamsVal f
      = f.params.enum.map (fun ip => (ip.2.name, paramSchema f.doc ip.1 ip.2)) := by
  have hnd : strNodupB (f.params.enum.map (fun ip => ip.2.name)) = true := by
    rw [show f.params.enum = List.enumFrom 0 f.params from rfl, enumFrom_names]
    exact hp
  have h := foldl_dictInsert_eq_map (fun ip : Nat × Param => ip.2.name)
    (fun ip : Nat × Param => paramSchema f.doc ip.1 ip.2) f.params.enum [] hnd
    (by intro x hx; simp)
  simpa [funcParamsVal] using h

theorem generateSchemaVal_eq (fs : List Func)
    (hnames : strNodupB (fs.map Func.name) = true) :
    generateSchemaVal fs = fs.map (fun f => (f.name, schemaEntryVal f)) := by
  have h := foldl_dictInsert_eq_map Func.name schemaEntryVal fs [] hnames
    (by intro x hx; simp)
  simpa [generateSchemaVal] using h

theorem paramSchema_canonical (doc : Doc) (i : Nat) (p : Param)
    (hdef : ∀ v, p.default = some v → canonicalB v = true) :
    canonicalB (paramSchema doc i p) = true := by
  have hobj : ∃ dflt desc, paramSchema doc i p
      = .obj [("type", .str p.annot), ("default value", dflt), ("description", desc)]
      ∧ canonicalB dflt = true ∧ canonicalB desc = true := by
    refine ⟨_, _, rfl, ?_, ?_⟩
    · cases hd : p.default with
      | none => simp [canonicalB]
      | some v => exact hdef v hd
    · cases hdo : doc.paramDescriptions.get? i with
      | none => simp [canonicalB]
      | some d => cases d <;> simp [optStrJson, canonicalB]
  obtain ⟨dflt, desc, heq, h1, h2⟩ := hobj
  rw [heq, canonicalB_obj]
  refine ⟨by rfl, ?_⟩
  intro kv hkv
  simp only [List.mem_cons, List.not_mem_nil, or_false] at hkv
  rcases hkv with rfl | rfl | rfl
  · simp [canonicalB]
  · exact h1
  · exact h2

theorem schemaEntryVal_canonical (f : Func)
    (hp : strNodupB (f.params.map Param.name) = true)
    (hdef : ∀ p ∈ f.params, ∀ v, p.default = some v → canonicalB v = true) :
    canonicalB (schemaEntryVal f) = true := by
  simp only [schemaEntryVal]
  rw [canonicalB_obj]
  refine ⟨by rfl, ?_⟩
  intro kv hkv
  simp only [List.mem_cons, List.not_mem_nil, or_false] at hkv
  rcases hkv with rfl | rfl
  · cases f.doc.shortDescription <;> simp [optStrJson, canonicalB]
  · show canonicalB (Json.obj (funcParamsVal f)) = true
    rw [funcParamsVal_eq f hp, canonicalB_obj]
    constructor
    · rw [show ((f.params.enum.map
            (fun ip => (ip.2.name, paramSchema f.doc ip.1 ip.2))).map Prod.fst)
          = f.params.enum.map (fun ip => ip.2.name) from by rw [List.map_map]; rfl]
      rw [show f.params.enum = List.enumFrom 0 f.params from rfl, enumFrom_names]
      exact hp
    · intro kv2 hkv2
      obtain ⟨ip, hip, rfl⟩ := List.mem_map.mp hkv2
      show canonicalB (paramSchema f.doc ip.1 ip.2) = true
      exact paramSchema_canonical f.doc ip.1 ip.2
        (fun v hv => hdef ip.2 (enumFrom_snd_mem f.params 0 ip hip) v hv)

theorem schemaVal_canonical (fs : List Func)
    (hnames : strNodupB (fs.map Func.name) = true)
    (hp : ∀ f ∈ fs, strNodupB (f.params.map Param.name) = true)
    (hdef : ∀ f ∈ fs, ∀ p ∈ f.params, ∀ v, p.default = some v → canonicalB v = true) :
    canonicalB (.obj (generateSchemaVal fs)) = true := by
  rw [generateSchemaVal_eq fs hnames, canonicalB_obj]
  constructor
  · rw [show ((fs.map (fun f => (f.name, schemaEntryVal f))).map Prod.fst)
        = fs.map Func.name from by rw [List.map_map]; rfl]
    exact hnames
  · intro kv hkv
    obtain ⟨f, hf, rfl⟩ := List.mem_map.mp hkv
    show canonicalB (schemaEntryVal f) = true
    exact schemaEntryVal_canonical f (hp f hf) (hdef f hf)

/-- C5 (corrected): for callables with pairwise-distinct `__name__`s
(and, as a Python signature guarantees, pairwise-distinct parameter
names, with canonical JSON-representable defaults), `generate_schema`
returns a string that `json.loads` parses back to the schema dict; the
dict has exactly one entry per callable, in list order; each callable's
parameters appear in declaration order; and the `i`-th declared
parameter's entry takes its description from the `i`-th documented
parameter by positional index (the literal string `"None"` when the
documentation is shorter) and its default value from the declaration
(the sentinel string `"None"` when none is declared). -/
theorem c5_schema_generation (fs : List Func)
    (hnames : strNodupB (fs.map Func.name) = true)
    (hp : ∀ f ∈ fs, strNodupB (f.params.map Param.name) = true)
    (hdef : ∀ f ∈ fs, ∀ p ∈ f.params, ∀ v, p.default = some v → canonicalB v = true) :
    jsonParse (generate_schema fs).data = some (.obj (generateSchemaVal fs))
    ∧ generateSchemaVal fs = fs.map (fun f => (f.name, schemaEntryVal f))
    ∧ (∀ f ∈ fs, funcParamsVal f
        = f.params.enum.map (fun ip => (ip.2.name, paramSchema f.doc ip.1 ip.2)))
    ∧ (∀ f ∈ fs, ∀ (i : Nat) (p : Param), f.params.get? i = some p →
        dictGet (funcParamsVal f) p.name
          = some (.obj [("type", .str p.annot),
              ("default value", p.default.getD (.str "None")),
              ("description", ((f.doc.paramDescriptions.get? i).map optStrJson).getD
                (.str "None"))])) := by
  refine ⟨?_, generateSchemaVal_eq fs hnames, fun f hf => funcParamsVal_eq f (hp f hf), ?_⟩
  · rw [show (generate_schema fs).data = printJson (.obj (generateSchemaVal fs)) from rfl]
    exact jsonParse_print _ (schemaVal_canonical fs hnames hp hdef)
  · intro f hf i p hget
    rw [funcParamsVal_eq f (hp f hf)]
    have hmem : (i, p) ∈ f.params.enum := List.mem_enum_iff_get?.mpr hget
    have hmem2 : (p.name, paramSchema f.doc i p)
        ∈ f.params.enum.map (fun ip => (ip.2.name, paramSchema f.doc ip.1 ip.2)) :=
      List.mem_map_of_mem _ hmem
    have hnd : strNodupB ((f.params.enum.map
        (fun ip => (ip.2.name, paramSchema f.doc ip.1 ip.2))).map Prod.fst) = true := by
      rw [show ((f.params.enum.map
            (fun ip => (ip.2.name, paramSchema f.doc ip.1 ip.2))).map Prod.fst)
          = f.params.enum.map (fun ip => ip.2.name) from by rw [List.map_map]; rfl]
      rw [show f.params.enum = List.enumFrom 0 f.params from rfl, enumFrom_names]
      exact hp f hf
    rw [dictGet_of_mem _ hnd p.name (paramSchema f.doc i p) hmem2]
    congr 1
    simp only [paramSchema]
    cases p.default <;> cases f.doc.paramDescriptions.get? i <;> rfl

/-- C5 counterexample: the claim quantifies over lists of *distinct
callables* and promises one schema entry per callable, but two distinct
callables sharing a `__name__` collapse into a single dict entry (a
Python dict assignment overwrites), so the schema does not have one
entry per callable. -/
theorem c5_counterexample :
    ∃ fs : List Func, fs.Nodup ∧ (generateSchemaVal fs).length ≠ fs.length := by
  refine ⟨[⟨"f", [], ⟨none, []⟩⟩, ⟨"f", [⟨"a", "int", none⟩], ⟨none, []⟩⟩], ?_, ?_⟩
  · refine List.nodup_cons.mpr ⟨?_, List.nodup_singleton _⟩
    intro hmem
    rw [List.mem_singleton] at hmem
    have h2 := congrArg Func.params hmem
    simp at h2
  · decide

/-- C5 witness: the schema of the spec's `add`/`multiply` example
satisfies the theorem's hypotheses, and its serialization parses back
to the schema dict. -/
theorem c5_witness :
    strNodupB ([addFunc, multiplyFunc].map Func.name) = true
    ∧ jsonParse (generate_schema [addFunc, multiplyFunc]).data
        = some (.obj (generateSchemaVal [addFunc, multiplyFunc])) :=
  ⟨by decide, (c5_schema_generation [addFunc, multiplyFunc] (by decide) (by decide)
      (by
        intro f hf p hpp v hv
        simp only [List.mem_cons, List.not_mem_nil, or_false] at hf
        rcases hf with rfl | rfl
        · simp only [addFunc, List.mem_cons, List.not_mem_nil, or_false] at hpp
          rcases hpp with rfl | rfl <;> simp at hv
        · simp only [multiplyFunc, List.mem_cons, List.not_mem_nil, or_false] at hpp
          rcases hpp with rfl | rfl
          · simp at hv
          · have h2 : some (Json.num 2) = some v := hv
            injection h2 with h3
            subst h3
            simp [canonicalB])).1⟩

end LlmAxe
